import Mathlib

/-!
Verification development for the NumFu interpreter (rphle/numfu).

This file shallowly embeds the parts of the implementation that the
claims under study speak about:

* `src/numfu/interpreter.py` — the tree-walking evaluator (`_eval`, `_call`,
  `_partial_lambda`, `_lambda`, `_index`, `_resolve_spread`, `_variable`,
  `_list`, `_conditional`, short-circuit operators, the tail-call trampoline);
* `src/numfu/typechecks.py` — `check_type`, `type_name`, `BuiltinFunc`
  (overload registration `add`, the `error` list, `__call__` dispatch);
* `src/numfu/builtins.py` — `division`, the `*`, `/`, `==` registrations;
* `src/numfu/modules.py` — `_id` (MD5 of the path), `ImportResolver`
  (`file`, `folder`, `stdlib`, `_module`, `_resolve`, `resolve`, the
  circular-import check).

Numbers (`mpmath.mpf`) are modelled as exact rationals together with the
special values `inf`, `-inf`, `nan`; the working-precision rounding of
mpmath is abstracted away (every arithmetic step is exact), which is
faithful for all inputs used below, whose intermediate results are exactly
representable at the default precision.  Error raising (`errors.py` always
aborts evaluation from the interpreter: `Error.__init__` ends in
`sys.exit(1)` for the default `fatal=True`) is modelled by `Except.error`
carrying the error kind and message; source positions are dropped.
-/

namespace NumFu

/-! ### mpmath value model (`mpmath.mpf`) -/

/-- An `mpmath.mpf` value: a finite arbitrary-precision number (modelled
exactly as a rational; rounding abstracted), `inf`, `-inf` or `nan`. -/
inductive MpF where
  | fin (q : ℚ)
  | inf
  | ninf
  | nan
deriving DecidableEq

/-- Python `bool(x)` for an mpf value: zero is falsy, everything else
(including `nan` and the infinities) is truthy. -/
def MpF.pyBool : MpF → Bool
  | .fin q => if q = 0 then false else true
  | _ => true

/-- Python `x % 1 != 0` for an mpf value (`Interpreter._index` uses this to
detect fractional indices).  `fmod` of `inf`/`nan` with 1 is `nan`, and
`nan != 0` is true, so the specials land in the fractional branch. -/
def MpF.mod1NeZero : MpF → Bool
  | .fin q => if q.den = 1 then false else true
  | _ => true

/-- Python `int(x)` for a finite mpf value (truncation toward zero; in this
development it is only applied to integer-valued numbers). -/
def MpF.toInt : MpF → Int
  | .fin q => q.num / (q.den : Int)
  | _ => 0

/-- Python `==` on two mpf values (`nan` compares unequal to everything). -/
def MpF.pyEq : MpF → MpF → Bool
  | .fin a, .fin b => if a = b then true else false
  | .inf, .inf => true
  | .ninf, .ninf => true
  | _, _ => false

/-- Python `>` on two mpf values (`nan` comparisons are false). -/
def MpF.pyGt : MpF → MpF → Bool
  | .fin a, .fin b => if a > b then true else false
  | .inf, .fin _ => true
  | .inf, .ninf => true
  | .fin _, .ninf => true
  | _, _ => false

/-- Python `<` on two mpf values (`nan` comparisons are false). -/
def MpF.pyLt (a b : MpF) : Bool := MpF.pyGt b a

/-- Python `<=` on two mpf values (`nan` comparisons are false). -/
def MpF.pyLe (a b : MpF) : Bool := MpF.pyGt b a || MpF.pyEq a b

/-- mpf subtraction (exact; `inf - inf = nan`, `nan` propagates). -/
def MpF.sub : MpF → MpF → MpF
  | .fin a, .fin b => .fin (a - b)
  | .fin _, .inf => .ninf
  | .fin _, .ninf => .inf
  | .inf, .fin _ => .inf
  | .ninf, .fin _ => .ninf
  | .inf, .ninf => .inf
  | .ninf, .inf => .ninf
  | _, _ => .nan

/-- mpf absolute value. -/
def MpF.abs : MpF → MpF
  | .fin q => .fin |q|
  | .inf => .inf
  | .ninf => .inf
  | .nan => .nan

/-- mpf multiplication (exact; `0 * inf = nan`, `nan` propagates). -/
def MpF.mul : MpF → MpF → MpF
  | .fin a, .fin b => .fin (a * b)
  | .fin a, .inf => if a = 0 then .nan else if a > 0 then .inf else .ninf
  | .fin a, .ninf => if a = 0 then .nan else if a > 0 then .ninf else .inf
  | .inf, .fin b => if b = 0 then .nan else if b > 0 then .inf else .ninf
  | .ninf, .fin b => if b = 0 then .nan else if b > 0 then .ninf else .inf
  | .inf, .inf => .inf
  | .inf, .ninf => .ninf
  | .ninf, .inf => .ninf
  | .ninf, .ninf => .inf
  | _, _ => .nan

/-- `mpmath.fdiv`: raises `ZeroDivisionError` (modelled as `Except.error`)
whenever the divisor is zero, regardless of the dividend; otherwise divides
(exactly, in this model).  `nan` propagates, `x / inf = 0`, `inf / inf = nan`. -/
def MpF.fdiv (s t : MpF) : Except Unit MpF :=
  if t = MpF.fin 0 then .error ()
  else
    match s, t with
    | .nan, _ => .ok .nan
    | _, .nan => .ok .nan
    | .fin a, .fin b => .ok (.fin (a / b))
    | .fin _, .inf => .ok (.fin 0)
    | .fin _, .ninf => .ok (.fin 0)
    | .inf, .fin q => .ok (if q < 0 then .ninf else .inf)
    | .ninf, .fin q => .ok (if q < 0 then .inf else .ninf)
    | _, _ => .ok .nan

/-! ### Interpreter error model (`errors.py`) -/

/-- The user-facing error kinds raised through `errors.py`.  `hostError`
marks places where the Python interpreter itself would crash (an uncaught
`IndexError`/`AttributeError` inside the implementation); `fuel` marks
exhaustion of the step budget of this embedding (the Python code would
simply keep running there). -/
inductive ErrKind where
  | nameError
  | typeError
  | indexError
  | recursionError
  | importError
  | zeroDivision
  | hostError
  | fuel
deriving DecidableEq

/-- A raised NumFu error: kind plus the exact message string. -/
structure Err where
  kind : ErrKind
  msg : String
deriving DecidableEq

/-! ### AST / runtime values (`ast_types.py`)

The Python implementation reuses AST nodes as runtime values (evaluated
lambdas and lists are `Lambda`/`List` nodes; evaluated numbers, strings and
booleans are host `mpf`/`str`/`bool` objects).  The embedding mirrors this:
`Expr` holds both node and value constructors.  Source positions (`Pos`)
and the pickled parse fragment (`Lambda.tree`, used only by the external
reconstructor) are dropped.  `BuiltinFunc` values are modelled separately
(see the `typechecks.py` section); the evaluator fragment embedded here
covers programs whose values are numbers, strings, booleans, lists,
closures and the placeholder. -/

inductive Expr where
  | numLit (value : MpF)
  | strLit (value : String)
  | boolLit (value : Bool)
  | var (name : String)
  | listE (elements : List Expr) (curry : List (String × Expr))
  | spread (e : Expr)
  | lam (argNames : List String) (body : Expr) (curry : List (String × Expr))
  | call (func : Expr) (args : List Expr)
  | indexE (target : Expr) (idx : Expr)
  | cond (test : Expr) (thenB : Expr) (elseB : Expr)
  | mpfVal (value : MpF)
  | strVal (value : String)
  | boolVal (value : Bool)
  | bounceV (func : Expr) (args : List Expr) (env : List (String × Expr))

/-- Environments are Python dicts (name → value).  They are modelled as
association lists looked up front-to-back; `dict.update` / `d1 | d2`
prepends the winning entries. -/
abbrev Env := List (String × Expr)

/-- Dictionary lookup: first match wins. -/
def envGet : Env → String → Option Expr
  | [], _ => none
  | (k, v) :: rest, n => if k = n then some v else envGet rest n

/-- `d[k] = v`. -/
def envInsert (e : Env) (k : String) (v : Expr) : Env := (k, v) :: e

/-- `base.copy().update(upd)` / `base | upd`: entries of `upd` win. -/
def envUpdate (base upd : Env) : Env := upd ++ base

/-- `d.update(zip(ks, vs))`-style sequential insertion of pairs. -/
def envUpdatePairs (base : Env) (ps : List (String × Expr)) : Env :=
  ps.foldl (fun e p => envInsert e p.1 p.2) base

/-- Python truthiness of a NumFu runtime value (`bool(x)`): numbers by
`MpF.pyBool`, strings/lists by non-emptiness (`String.__bool__`,
`List.__bool__`), `Bool` nodes by their value; every other object —
lambdas, variables, spreads, AST nodes without `__bool__` — is truthy. -/
def truthy : Expr → Bool
  | .mpfVal v => v.pyBool
  | .strVal s => !s.data.isEmpty
  | .boolVal b => b
  | .listE es _ => !es.isEmpty
  | .strLit s => !s.data.isEmpty
  | .boolLit b => b
  | _ => true

/-- `typechecks.type_name` applied to a runtime value.  The `match` in the
source sends `List` values (and the literal string `"list"`) to `"List"`,
mpf values to `"Number"`, strings to `"String"`, bools to `"Boolean"`;
anything else falls back to `str(t)`/`__name__` — for `Variable` objects
that is their `repr` (`"_"` for the placeholder); the remaining
constructors never reach `type_name` in the embedded fragment and are
rendered by a constructor tag. -/
def typeNameVal : Expr → String
  | .listE _ _ => "List"
  | .strVal s => if s = "list" then "List" else "String"
  | .mpfVal _ => "Number"
  | .boolVal b => if b then "Boolean" else "Boolean"
  | .var n => if n = "_" then "_" else "Variable(" ++ n ++ ")"
  | .lam _ _ _ => "Lambda"
  | .numLit _ => "Number"
  | .strLit _ => "String"
  | .boolLit _ => "Boolean"
  | .spread _ => "Spread"
  | .call _ _ => "Call"
  | .indexE _ _ => "Index"
  | .cond _ _ _ => "Conditional"
  | .bounceV _ _ _ => "Bounce"

/-- `isinstance(arg, Variable) and arg.name == "_"`. -/
def isPlaceholder : Expr → Bool
  | .var n => n = "_"
  | _ => false

/-- `str.startswith` over the underlying character lists (the core
`String.startsWith` does not reduce in the kernel). -/
def pyStartsWith (s pre : String) : Bool := pre.data.isPrefixOf s.data

/-- `str.endswith` over the underlying character lists. -/
def pyEndsWith (s suf : String) : Bool := suf.data.isSuffixOf s.data

/-- Python `name.lstrip("...")`: strip all leading dots. -/
def stripDots (s : String) : String := String.mk (s.data.dropWhile (fun c => c = '.'))

/-! ### `Interpreter._partial_lambda` -/

/-- The binding loop of `_partial_lambda`: walk the zipped
`(orig_name, stripped_name)` parameter list, binding non-placeholder
arguments, collecting a rest parameter, and recording filled positions.
Returns the extended environment and `filled_pos`. -/
def plLoop (total : Nat) (args : List Expr) :
    List (String × String) → Nat → Env → List Nat → (Env × List Nat)
  | [], _, env, filled => (env, filled)
  | (orig, name) :: rest, i, env, filled =>
    if args.length ≤ i then (env, filled)
    else if pyStartsWith orig "..." then
      let restArgs := (args.drop i).filter (fun a => !isPlaceholder a)
      if !restArgs.isEmpty then
        (envInsert env name (.listE restArgs []),
         filled ++ (List.range total).filter (fun j => i ≤ j))
      else (env, filled)
    else if !isPlaceholder (args.getD i (.var "_")) then
      plLoop total args rest (i + 1) (envInsert env name (args.getD i (.var "_"))) (filled ++ [i])
    else plLoop total args rest (i + 1) env filled

/-- `Interpreter._partial_lambda(this, args, state)` — returns a `Lambda`
with the given arguments (including `_` placeholders) bound.  NOTE: the
source starts from `partial_env = state.env.copy()` only; the callee's own
captured environment `this.curry` is **not** merged in (the serialized
parse fragment manipulation is dropped: it only affects reconstruction). -/
def partialLambda (argNamesO : List String) (body : Expr) (args : List Expr)
    (stateEnv : Env) : Expr :=
  let argNames := argNamesO.map stripDots
  let restIndex := argNamesO.findIdx? (fun s => pyStartsWith s "...")
  let r := plLoop argNamesO.length args (argNamesO.zip argNames) 0 stateEnv []
  let penv := r.1
  let filled := r.2
  let penv :=
    match restIndex with
    | some ri =>
      if argNames.length < args.length then
        let restName := argNames.getD ri ""
        let extra := (args.drop argNames.length).filter (fun a => !isPlaceholder a)
        if !extra.isEmpty then
          let existing := (envGet penv restName).getD (.listE [] [])
          let combined :=
            (match existing with | .listE es _ => es | _ => []) ++ extra
          envInsert penv restName (.listE combined [])
        else penv
      else penv
    | none => penv
  let remaining := ((List.range argNamesO.length).zip argNamesO).filterMap (fun p =>
    if !(filled.contains p.1) &&
       (!(pyStartsWith p.2 "...") || (envGet penv (stripDots p.2)).isNone)
    then some p.2 else none)
  .lam remaining body penv

/-! ### `Interpreter._resolve_spread`, argument evaluation, `_index` -/

/-- `Interpreter._resolve_spread`: expand `Spread` elements in place.  A
spread expression must evaluate to a `List`; evaluating to the placeholder
`_` raises the dedicated `TypeError`, any other non-list raises the
not-iterable `TypeError`.  `ev` is the recursive evaluation entry
(`self._eval` at the current state). -/
def resolveSpreadF (ev : Expr → Env → Except Err Expr) :
    List Expr → Env → Except Err (List Expr)
  | [], _ => .ok []
  | el :: rest, env =>
    match el with
    | .spread ex =>
      match ev ex env with
      | .error e => .error e
      | .ok lst =>
        match lst with
        | .listE es _ =>
          match resolveSpreadF ev rest env with
          | .error e => .error e
          | .ok tail => .ok (es ++ tail)
        | .var n =>
          if n = "_" then
            .error ⟨.typeError, "Cannot combine spread operator with argument placeholder"⟩
          else
            .error ⟨.typeError, "Type \x27" ++ typeNameVal lst ++ "\x27 is not iterable"⟩
        | _ =>
          .error ⟨.typeError, "Type \x27" ++ typeNameVal lst ++ "\x27 is not iterable"⟩
    | _ =>
      match resolveSpreadF ev rest env with
      | .error e => .error e
      | .ok tail => .ok (el :: tail)

/-- Sequential evaluation of a list of expressions
(`[self._eval(a, state=state) for a in ...]`). -/
def evalListF (ev : Expr → Env → Except Err Expr) :
    List Expr → Env → Except Err (List Expr)
  | [], _ => .ok []
  | a :: rest, env =>
    match ev a env with
    | .error e => .error e
    | .ok v =>
      match evalListF ev rest env with
      | .error e => .error e
      | .ok tail => .ok (v :: tail)

/-- `Interpreter._index` after both subexpressions are evaluated: the
target must be a `List` or a string; the index must be an integer-valued
mpf (fractional and special values raise `TypeError`); out-of-range raises
`IndexError`; negative indices count from the end; list elements are
evaluated in the list's `curry` environment (`state.edit(env=target.curry)`). -/
def indexCoreF (ev : Expr → Env → Except Err Expr) (target idx : Expr) :
    Except Err Expr :=
  let subscriptable := match target with
    | .listE _ _ => true
    | .strVal _ => true
    | _ => false
  if subscriptable then
    let tName := match target with | .strVal _ => "String" | _ => "List"
    let len : Nat := match target with
      | .strVal s => s.length
      | .listE es _ => es.length
      | _ => 0
    match idx with
    | .mpfVal v =>
      if v.mod1NeZero then
        .error ⟨.typeError, tName ++ " index must be an integer, not a floating-point number"⟩
      else
        let i : Int := v.toInt
        if (len : Int) ≤ i ∨ i < -(len : Int) then
          .error ⟨.indexError, tName ++ " index out of range"⟩
        else
          let i := if i < 0 then (len : Int) + i else i
          match target with
          | .strVal s =>
            match s.data.get? i.toNat with
            | some c => .ok (.strVal (String.mk [c]))
            | none => .error ⟨.hostError, "IndexError"⟩
          | .listE es curry =>
            match es.get? i.toNat with
            | some e => ev e curry
            | none => .error ⟨.hostError, "IndexError"⟩
          | _ => .error ⟨.hostError, "unreachable"⟩
    | _ =>
      .error ⟨.typeError,
        tName ++ " index must be an integer, not \x27" ++ typeNameVal idx ++ "\x27"⟩
  else
    .error ⟨.typeError, "\x27" ++ typeNameVal target ++ "\x27 object is not subscriptable"⟩

/-! ### `Interpreter._lambda` — closure application and the trampoline -/

/-- Interpreter configuration: `iterDepth` is the tail-call iteration bound
(`none` models the default `math.inf`).  The host recursion bound
`rec_depth` is modelled by the evaluation fuel. -/
structure Cfg where
  iterDepth : Option Nat

/-- The default interpreter configuration (`iter_depth` unbounded). -/
def stdCfg : Cfg := ⟨none⟩

/-- `Interpreter._lambda`: the `while True` trampoline loop.  `ev` is
`self._eval` (with its tail flag); `cargs`/`cenv` are the loop state
`current_args`/`current_env`, `stateEnv` is the entry `state.env`.  The
first `Nat` is loop fuel (the Python loop is unbounded), the second is the
`iterations` counter checked against `iter_depth`. -/
def lambdaGo (cfg : Cfg) (ev : Expr → Bool → Env → Except Err Expr) :
    Nat → Nat → Expr → List Expr → Env → Env → Except Err Expr
  | 0, _, _, _, _, _ => .error ⟨.fuel, "trampoline fuel exhausted"⟩
  | fuel + 1, iterations, cl, cargs, cenv, stateEnv =>
    let iterations := iterations + 1
    if (match cfg.iterDepth with | some d => decide (d < iterations) | none => false) then
      .error ⟨.recursionError, "tail-call recursion limit exceeded"⟩
    else
      match cl with
      | .lam argNamesO body curry =>
        let newEnv := envUpdate cenv curry
        let catchRest := argNamesO.any (fun a => pyStartsWith a "...")
        let argNames := argNamesO.map stripDots
        if argNames.length < cargs.length && !catchRest then
          -- more arguments than parameters: fill all, evaluate the body in
          -- tail position, then continue with the surplus arguments if the
          -- result is again a lambda (with `current_env = state.env`)
          let filledEnv := envUpdatePairs newEnv (argNames.zip (cargs.take argNames.length))
          match ev body true filledEnv with
          | .error e => .error e
          | .ok result =>
            match result with
            | .lam a b c =>
              lambdaGo cfg ev fuel iterations (.lam a b c)
                (cargs.drop argNames.length) stateEnv stateEnv
            | _ =>
              .error ⟨.typeError,
                "Cannot apply " ++ toString (cargs.length - argNames.length) ++
                  " more arguments to non-callable result"⟩
        else if cargs.length < argNames.length then
          -- partial application
          .ok (partialLambda argNamesO body cargs newEnv)
        else
          -- exact match (or surplus absorbed by a rest parameter)
          let env2 :=
            if catchRest then
              envInsert
                (envUpdatePairs newEnv
                  (argNames.dropLast.zip (cargs.take (argNames.length - 1))))
                (argNames.getLastD "")
                (.listE (cargs.drop (argNames.length - 1)) [])
            else envUpdatePairs newEnv (argNames.zip cargs)
          match ev body true env2 with
          | .error e => .error e
          | .ok result =>
            match result with
            | .bounceV bf bargs benv =>
              match bf with
              | .lam a b c => lambdaGo cfg ev fuel iterations (.lam a b c) bargs benv stateEnv
              | _ => .ok result
            | _ => .ok result
      | _ => .error ⟨.hostError, "lambda call on non-lambda"⟩

/-! ### `Interpreter._call` (non-short-circuit part) and `_eval` -/

/-- The body of `Interpreter._call` after the short-circuit check:
evaluate the callee, expand spreads, evaluate the arguments, then either
build a placeholder partial (`_partial_lambda` — note that the callee's
`curry` is ignored there), bounce in tail position, enter the trampoline,
or raise not-callable.  The `BuiltinFunc` branches of `_call` are outside
this evaluator fragment (builtin dispatch is embedded separately below);
no builtin value occurs in the programs considered here. -/
def callGo (ev : Expr → Env → Except Err Expr)
    (lamCall : Expr → List Expr → Env → Except Err Expr)
    (f : Expr) (args : List Expr) (isTail : Bool) (env : Env) : Except Err Expr :=
  match ev f env with
  | .error e => .error e
  | .ok func =>
    match resolveSpreadF ev args env with
    | .error e => .error e
    | .ok rawArgs =>
      match evalListF ev rawArgs env with
      | .error e => .error e
      | .ok argsV =>
        let hasPh := argsV.any isPlaceholder
        match func with
        | .lam ns body _ =>
          if hasPh then .ok (partialLambda ns body argsV env)
          else if isTail then .ok (.bounceV func argsV env)
          else lamCall func argsV env
        | _ => .error ⟨.typeError, typeNameVal func ++ " is not callable"⟩

/-- `Interpreter._eval`, fuel-indexed.  Dispatch by node kind mirrors the
source: literals evaluate to host values, already-evaluated values pass
through, lambdas capture (`curry.copy() | state.env` when a non-empty
curry is present, else `state.env.copy()`), lists snapshot the environment
and expand spreads, conditionals forward the tail flag, calls go through
the short-circuit check and then `callGo`/`lambdaGo`.  Variable lookup is
the single-module case: lexical environment, then (empty) constants, then
the imports and builtin tables, then `NameError`; the placeholder `_` returns
itself when unbound.  Fuel exhaustion models the host recursion limit. -/
def evalE (cfg : Cfg) : Nat → Expr → Bool → Env → Except Err Expr
  | 0, _, _, _ => .error ⟨.recursionError, "maximum recursion depth exceeded"⟩
  | n + 1, node, isTail, env =>
    match node with
    | .numLit v => .ok (.mpfVal v)
    | .strLit s => .ok (.strVal s)
    | .boolLit b => .ok (.boolVal b)
    | .mpfVal v => .ok (.mpfVal v)
    | .strVal s => .ok (.strVal s)
    | .boolVal b => .ok (.boolVal b)
    | .var name =>
      if name = "_" then .ok ((envGet env "_").getD (.var "_"))
      else
        match envGet env name with
        | some v => .ok v
        | none =>
          .error ⟨.nameError, "\x27" ++ name ++ "\x27 is not defined in the current scope"⟩
    | .lam names body curry =>
      .ok (.lam names body (if curry.isEmpty then env else envUpdate curry env))
    | .listE elems _ =>
      match resolveSpreadF (fun e env2 => evalE cfg n e false env2) elems env with
      | .error e => .error e
      | .ok resolved => .ok (.listE resolved env)
    | .spread e => .ok (.spread e)
    | .cond t th el =>
      match evalE cfg n t false env with
      | .error e => .error e
      | .ok c => if truthy c then evalE cfg n th isTail env else evalE cfg n el isTail env
    | .indexE t i =>
      match evalE cfg n t false env with
      | .error e => .error e
      | .ok tv =>
        match evalE cfg n i false env with
        | .error e => .error e
        | .ok iv => indexCoreF (fun e env2 => evalE cfg n e false env2) tv iv
    | .bounceV _ _ _ => .error ⟨.hostError, "AttributeError"⟩
    | .call f args =>
      match f with
      | .var nm =>
        if nm = "&&" || nm = "||" then
          -- short-circuit branch at the head of `_call`
          match args.get? 0 with
          | none => .error ⟨.hostError, "IndexError"⟩
          | some a0 =>
            match evalE cfg n a0 false env with
            | .error e => .error e
            | .ok left =>
              if nm = "&&" then
                if truthy left then
                  match args.get? 1 with
                  | none => .error ⟨.hostError, "IndexError"⟩
                  | some a1 =>
                    match evalE cfg n a1 false env with
                    | .error e => .error e
                    | .ok r => .ok (.boolVal (truthy r))
                else .ok (.boolVal false)
              else
                if truthy left then .ok (.boolVal true)
                else
                  match args.get? 1 with
                  | none => .error ⟨.hostError, "IndexError"⟩
                  | some a1 =>
                    match evalE cfg n a1 false env with
                    | .error e => .error e
                    | .ok r => .ok (.boolVal (truthy r))
        else
          callGo (fun e env2 => evalE cfg n e false env2)
            (fun fn as env2 =>
              lambdaGo cfg (fun e t env3 => evalE cfg n e t env3) n 0 fn as env2 env2)
            (.var nm) args isTail env
      | _ =>
        callGo (fun e env2 => evalE cfg n e false env2)
          (fun fn as env2 =>
            lambdaGo cfg (fun e t env3 => evalE cfg n e t env3) n 0 fn as env2 env2)
          f args isTail env

/-! ### `typechecks.py` — types, `check_type`, `type_name` -/

/-- The fixed operator set (`typechecks.OPERATORS`). -/
def OPERATORS : List String :=
  ["+", "-", "*", "/", "^", "%", "<", ">", "<=", ">=", "==", "!=", "&&", "||"]

/-- Argument type specifiers used in overload registrations: `Any`, the
concrete kinds (`mpf`, `str`, `bool`, `List`, `Lambda`, `BuiltinFunc`),
unions, `ListOf`, `InfiniteOf`. -/
inductive Ty where
  | any
  | num
  | str
  | bool
  | listT
  | lamT
  | builtinT
  | union (ts : List Ty)
  | listOf (t : Ty)
  | infiniteOf (t : Ty)

/-- The recursion of `typechecks.check_type`, fuel-indexed: every
recursive call descends strictly into the type specifier, so `sizeOf` of
the specifier (used by the wrapper below) bounds the recursion depth and
the out-of-fuel arm is unreachable. -/
def checkTypeF : Nat → Expr → Ty → Bool
  | 0, _, _ => false
  | n + 1, v, ty =>
    match ty with
    | .any => true
    | .union ts => ts.any (fun t => checkTypeF n v t)
    | .listOf t =>
      (match v with
       | .listE es _ => es.all (fun e => checkTypeF n e t)
       | _ => false)
    | .num =>
      (match v with
       | .mpfVal _ => true
       | .var nm => nm = "e" || nm = "pi"
       | _ => false)
    | .str => (match v with | .strVal _ => true | _ => false)
    | .bool => (match v with | .boolVal _ => true | _ => false)
    | .listT => (match v with | .listE _ _ => true | _ => false)
    | .lamT => (match v with | .lam _ _ _ => true | _ => false)
    | .builtinT => false
    | .infiniteOf _ => false

mutual

/-- Structural size of a type specifier (fuel bound for `check_type`). -/
def tySize : Ty → Nat
  | .union ts => 1 + tySizeList ts
  | .listOf t => 1 + tySize t
  | .infiniteOf t => 1 + tySize t
  | _ => 1

/-- Structural size of a list of type specifiers. -/
def tySizeList : List Ty → Nat
  | [] => 1
  | t :: ts => 1 + tySize t + tySizeList ts

end

/-- `typechecks.check_type`: `Any` accepts everything, unions accept any
member, `ListOf` checks every element, the mpf kind additionally accepts
objects whose `name` attribute is `"e"` or `"pi"` (the named constants —
and, by the same `getattr`, `Variable` nodes so named), otherwise an
`isinstance` check.  `BuiltinFunc` values do not occur in the embedded
value space, so the `BuiltinFunc` kind accepts nothing here. -/
def check_type (v : Expr) (t : Ty) : Bool := checkTypeF (tySize t) v t

mutual

/-- `typechecks.type_name` on a type specifier: `Any` renders as `"any"`,
unions join member names with `" or "`, the concrete kinds map through the
`names` dict (`mpf → Number`, `str → String`, `list → List`,
`bool → Boolean`), `ListOf` renders via its `repr`.  `InfiniteOf` has no
`repr` and never reaches a message (overloads are expanded first). -/
def typeNameTy : Ty → String
  | .any => "any"
  | .union ts => typeNamesJoined ts
  | .num => "Number"
  | .str => "String"
  | .bool => "Boolean"
  | .listT => "List"
  | .lamT => "Lambda"
  | .builtinT => "BuiltinFunc"
  | .listOf t => "List<" ++ typeNameTy t ++ ">"
  | .infiniteOf _ => "InfiniteOf"

/-- `" or ".join(type_name(x) for x in ts)`. -/
def typeNamesJoined : List Ty → String
  | [] => ""
  | [t] => typeNameTy t
  | t :: ts => typeNameTy t ++ " or " ++ typeNamesJoined ts

end

/-! ### `typechecks.py` — `BuiltinFunc` and dispatch -/

/-- `typechecks.HelpMsg`. -/
structure HelpMsg where
  invalidArg : String
  argNum : String

/-- The default (empty) help message. -/
def emptyHelp : HelpMsg := ⟨"", ""⟩

/-- A per-position validator: predicate plus its documented failure
template (the Python function's docstring). -/
structure Validator where
  pred : Expr → Bool
  doc : String

/-- One registered overload: the tuple
`(arg_types, return_type, func, help, validators, transformer)`
appended by `BuiltinFunc.add`. -/
structure Overload where
  argTypes : List Ty
  retTy : Ty
  func : List Expr → Except Err Expr
  help : HelpMsg
  validators : List (Option Validator)
  transformer : Option (List Expr → List Expr)

/-- `typechecks.BuiltinFunc`: name, `eval_lists` flag, help, `partial`
flag, the overload list `_overloads` (registration order) and the explicit
error list `_errors`. -/
structure Builtin where
  name : String
  evalLists : Bool
  help : HelpMsg
  partialFlag : Bool
  overloads : List Overload
  errlist : List (List Ty × String)

/-- `BuiltinFunc.__init__` / `builtins.overload`. -/
def mkBuiltin (name : String) (evalLists : Bool) (help : HelpMsg) : Builtin :=
  ⟨name, evalLists, help, false, [], []⟩

/-- `self.is_operator = self.name in OPERATORS`. -/
def Builtin.isOperator (b : Builtin) : Bool := OPERATORS.contains b.name

/-- `itertools.permutations(range(n))` in its emission order: choose each
index in increasing order, then permute the remainder. -/
def permsFuel : Nat → List Nat → List (List Nat)
  | 0, _ => [[]]
  | _, [] => [[]]
  | n + 1, l =>
    (List.range l.length).flatMap (fun i =>
      match l.get? i with
      | some x => (permsFuel n (l.eraseIdx i)).map (fun p => x :: p)
      | none => [])

/-- `itertools.permutations` over a list. -/
def itertoolsPerms (l : List Nat) : List (List Nat) := permsFuel l.length l

/-- `BuiltinFunc.add(arg_types, return_type, func, validators, transformer,
commutative, help)`: registers one overload, or — when `commutative` — one
overload per permutation of the argument positions, wrapping `func` so
that the incoming arguments are re-ordered by the permutation
(`lambda *a: f(*[a[i] for i in p])`).  The `ValueError` guards on
validator counts and `InfiniteOf` placement are import-time checks that
all registrations below satisfy; they are not modelled.  The list-index
default in the wrapper is unreachable: dispatch only calls an overload
whose arity equals the argument count. -/
def Builtin.add (b : Builtin) (argTypes : List Ty) (retTy : Ty)
    (func : List Expr → Except Err Expr) (validators : List (Option Validator))
    (transformer : Option (List Expr → List Expr)) (commutative : Bool)
    (help : HelpMsg) : Builtin :=
  if commutative then
    { b with overloads := b.overloads ++
        (itertoolsPerms (List.range argTypes.length)).map (fun perm =>
          ⟨perm.map (fun i => argTypes.getD i .any),
           retTy,
           fun a => func (perm.map (fun i => a.getD i (.boolVal false))),
           help,
           (if validators.isEmpty then [] else perm.map (fun i => validators.getD i none)),
           transformer⟩) }
  else
    { b with overloads := b.overloads ++ [⟨argTypes, retTy, func, help, validators, transformer⟩] }

/-- `BuiltinFunc.error(arg_types, error)`. -/
def Builtin.error (b : Builtin) (argTypes : List Ty) (message : String) : Builtin :=
  { b with errlist := b.errlist ++ [(argTypes, message)] }

/-- Python `str.format` restricted to the field names actually used by the
validator docstrings (`{i}`, `{typename}`, `{arg}`). -/
def formatDoc (doc : String) (i : Nat) (typename : String) (arg : String) : String :=
  ((doc.replace "{i}" (toString i)).replace "{typename}" typename).replace "{arg}" arg

/-- Python `str(arg)` as interpolated into validator messages; only the
`is_number` validator (string arguments) renders `{arg}` in the source,
so only strings need a faithful rendering here. -/
def pyStr : Expr → String
  | .strVal s => s
  | .boolVal b => if b then "True" else "False"
  | _ => "<value>"

/-- The expansion of a trailing `InfiniteOf` to the argument count:
`arg_types[:-1] + [elem] * (len(args) - len(arg_types) + 1)` (an empty
replication when the argument count is too small, as in Python). -/
def expandTypes (argTypes : List Ty) (nargs : Nat) : List Ty :=
  match argTypes.getLast? with
  | some (.infiniteOf t) => argTypes.dropLast ++ List.replicate (nargs + 1 - argTypes.length) t
  | _ => argTypes

/-- Result of the per-overload argument scan (the `for i, (arg, typ) in
reversed(...)` loop): all checks passed, a type failure (with the recorded
error string), or a validator failure (raised immediately). -/
inductive ScanOut where
  | pass
  | typeFail (msg : String)
  | valFail (msg : String)
deriving DecidableEq

/-- The recorded error string for a type failure of argument `i` (0-based)
against `ty` (`"Invalid argument type for ..."`). -/
def typeFailMsg (b : Builtin) (help : HelpMsg) (i : Nat) (arg : Expr) (ty : Ty) : String :=
  "Invalid argument type for " ++ (if b.isOperator then "operator " else "") ++
    "\x27" ++ b.name ++ "\x27: argument " ++ toString (i + 1) ++ " must be " ++
    typeNameTy ty ++ ", got " ++ typeNameVal arg ++
    (if help.invalidArg ≠ "" then "\nhelp: " ++ help.invalidArg else "")

/-- The scan loop over `reversed(list(enumerate(zip(args, arg_types))))`:
a `check_type` failure records an error and breaks; a validator failure
(only consulted when the validator list is non-empty, as in the source)
raises immediately with the validator's formatted docstring. -/
def scanArgs (b : Builtin) (help : HelpMsg) (validators : List (Option Validator)) :
    List (Nat × Expr × Ty) → ScanOut
  | [] => .pass
  | (i, arg, ty) :: rest =>
    if !check_type arg ty then .typeFail (typeFailMsg b help i arg ty)
    else
      match (if validators.isEmpty then none else validators.getD i none) with
      | some v =>
        if !v.pred arg then .valFail (formatDoc v.doc (i + 1) (typeNameVal arg) (pyStr arg))
        else scanArgs b help validators rest
      | none => scanArgs b help validators rest

/-- The reversed enumerated argument/type pairs fed to the scan. -/
def enumRev (args : List Expr) (tys : List Ty) : List (Nat × Expr × Ty) :=
  ((List.range tys.length).zip (args.zip tys)).reverse

/-- The special-semantics names of `BuiltinFunc.__call__`. -/
def specialNames : List String :=
  ["String", "format", "error", "assert", "filter", "range", "set"]

/-- The special-semantics branch of `__call__` (`String`, `format`,
`error`, `assert`, `filter`, `range`, `set`) depends on the ambient
precision and the interpreter instance; none of the builtins embedded in
this file is in the special set, so the branch is kept only for structural
fidelity and is unreachable below. -/
def specialCall (_b : Builtin) (_args : List Expr) : Except Err Expr :=
  .error ⟨.hostError, "special builtin outside the embedded fragment"⟩

/-- The overload loop of `BuiltinFunc.__call__`: expand `InfiniteOf`, skip
on arity mismatch, apply the transformer (rebinding `args` for the
remaining iterations, as the source does), scan the arguments from highest
to lowest index, dispatch on all-pass; afterwards consult the explicit
error list (`zip` truncates there, as in Python), then raise the first
collected type error, then the arity error. -/
def dispatchGo (b : Builtin) : List Overload → List Expr → List String → Except Err Expr
  | [], args, errors =>
    match b.errlist.find? (fun pr => (args.zip pr.1).all (fun av => check_type av.1 av.2)) with
    | some pr => .error ⟨.typeError, pr.2⟩
    | none =>
      match errors with
      | e :: _ => .error ⟨.typeError, e⟩
      | [] =>
        let expected := match b.overloads.head? with
          | some ov => ov.argTypes.length
          | none => 0
        .error ⟨.typeError,
          "\x27" ++ b.name ++ "\x27 expected " ++ toString expected ++ " argument" ++
            (if expected ≠ 1 then "s" else "") ++ ", got " ++ toString args.length ++
            (if b.help.argNum ≠ "" then "\nhelp: " ++ b.help.argNum else "")⟩
  | ov :: rest, args, errors =>
    let argTypes := expandTypes ov.argTypes args.length
    if args.length ≠ argTypes.length then dispatchGo b rest args errors
    else
      let args := match ov.transformer with | some tr => tr args | none => args
      match scanArgs b ov.help ov.validators (enumRev args argTypes) with
      | .typeFail msg => dispatchGo b rest args (errors ++ [msg])
      | .valFail msg => .error ⟨.typeError, msg⟩
      | .pass =>
        if !b.partialFlag && specialNames.contains b.name then specialCall b args
        else ov.func args

/-- `BuiltinFunc.__call__`. -/
def Builtin.call (b : Builtin) (args : List Expr) : Except Err Expr :=
  dispatchGo b b.overloads args []

/-! ### `builtins.py` — `division`, validators, the `*`, `/`, `==` builtins -/

/-- `builtins.division`: safe division that catches mpmath's
`ZeroDivisionError` and returns `nan` / `+inf` / `-inf` according to the
sign tests `a == 0` / `a > 0` / `else`. -/
def division (a b : MpF) : MpF :=
  match MpF.fdiv a b with
  | .ok r => r
  | .error _ =>
    if MpF.pyEq a (.fin 0) then .nan
    else if MpF.pyGt a (.fin 0) then .inf
    else .ninf

/-- `Validators.mul_integer`: `isinstance(x, mpf) and x == int(x)`
(`int()` of `inf`/`nan` raises, caught to `False`). -/
def mulInteger : Validator :=
  ⟨fun x => match x with
    | .mpfVal (.fin q) => q.den = 1
    | _ => false,
   "Can\x27t multiply by non-integer"⟩

/-- Python `s * n` for a string and an int (non-positive `n` gives `""`). -/
def strRepeat (s : String) (n : Int) : String :=
  String.join (List.replicate n.toNat s)

/-- Python `l * n` for a list and an int. -/
def listRepeat (es : List Expr) (n : Int) : List Expr :=
  (List.replicate n.toNat es).flatten

/-- Impl of the `[Num, Num]` overload of `*` (`mpm.fmul`). -/
def fmulImpl : List Expr → Except Err Expr
  | [.mpfVal a, .mpfVal b] => .ok (.mpfVal (MpF.mul a b))
  | _ => .error ⟨.hostError, "impl arity"⟩

/-- Impl of the `[str, Num]` overload of `*` (`lambda a, b: a * int(b)`). -/
def strMulImpl : List Expr → Except Err Expr
  | [.strVal a, .mpfVal b] => .ok (.strVal (strRepeat a b.toInt))
  | _ => .error ⟨.hostError, "impl arity"⟩

/-- Impl of the `[List, Num]` overload of `*`
(`lambda a, b: List(a.elements * int(b), pos=a.pos, curry=a.curry)`). -/
def listMulImpl : List Expr → Except Err Expr
  | [.listE es curry, .mpfVal b] => .ok (.listE (listRepeat es b.toInt) curry)
  | _ => .error ⟨.hostError, "impl arity"⟩

/-- Impl of the `[Num, Num]` overload of `/` (`builtins.division`). -/
def divImpl : List Expr → Except Err Expr
  | [.mpfVal a, .mpfVal b] => .ok (.mpfVal (division a b))
  | _ => .error ⟨.hostError, "impl arity"⟩

/-- `mpmath`'s conversion of decimal working precision to binary precision
(`dps_to_prec`): `max(1, round((dps + 1) * 3.3219280948873626))`. -/
def dpsToPrec (dps : Nat) : Nat :=
  max 1 (round (((dps : ℚ) + 1) * (33219280948873626 / 10000000000000000))).toNat

/-- The binary precision at the interpreter's default `precision=15`
decimal digits (`mpmath.mp.dps = 15` gives `mp.prec = 53`). -/
def defaultPrec : Nat := dpsToPrec 15

/-- `mpmath.almosteq(s, t)` with the default tolerances: both epsilons are
`ldexp(1, -prec + 4)`; return true when `|s - t| <= eps`, else compare the
relative error `|s - t| / max(|s|, |t|)` against `eps`.  Arithmetic is
exact in this model (faithful whenever the differences involved are
exactly representable, as for the witnesses below). -/
def almosteq (prec : Nat) (s t : MpF) : Bool :=
  let eps : MpF := .fin (1 / 2 ^ (prec - 4))
  let diff := MpF.abs (MpF.sub s t)
  if MpF.pyLe diff eps then true
  else
    let abss := MpF.abs s
    let abst := MpF.abs t
    let err :=
      if MpF.pyLt abss abst then
        (match MpF.fdiv diff abst with | .ok v => v | .error _ => .nan)
      else
        (match MpF.fdiv diff abss with | .ok v => v | .error _ => .nan)
    MpF.pyLe err eps

mutual

/-- Python `==` on evaluated NumFu values (the structural fallback of the
`==` builtin): numeric comparison between numbers and bools, string and
bool equality, element-wise list equality (`List.__eq__` ignores the curry
environment), `Lambda.__eq__` compares parameter names, body and curry
(source positions are dropped in this embedding, and curry dicts are
compared entry-wise); unrelated kinds compare unequal. -/
def pyEqB : Expr → Expr → Bool
  | .mpfVal a, .mpfVal b => MpF.pyEq a b
  | .mpfVal a, .boolVal b => MpF.pyEq a (.fin (if b then 1 else 0))
  | .boolVal a, .mpfVal b => MpF.pyEq (.fin (if a then 1 else 0)) b
  | .boolVal a, .boolVal b => a = b
  | .strVal a, .strVal b => a = b
  | .listE as _, .listE bs _ => pyEqList as bs
  | .lam ns bd cur, .lam ns2 bd2 cur2 => ns = ns2 && pyEqB bd bd2 && pyEqEnv cur cur2
  | .var a, .var b => a = b
  | _, _ => false

/-- Python `==` on lists of values, element-wise. -/
def pyEqList : List Expr → List Expr → Bool
  | [], [] => true
  | a :: as2, b :: bs => pyEqB a b && pyEqList as2 bs
  | _, _ => false

/-- Python `==` on captured environments, entry-wise. -/
def pyEqEnv : Env → Env → Bool
  | [], [] => true
  | (k, v) :: r, (k2, v2) :: r2 => k = k2 && pyEqB v v2 && pyEqEnv r r2
  | _, _ => false

end

/-- Impl of the `[Any, Any]` overload of `==`
(`mpm.almosteq(a, b) if isinstance(a, Num) and isinstance(b, Num) else a == b`). -/
def eqImpl : List Expr → Except Err Expr
  | [a, b] =>
    match a, b with
    | .mpfVal x, .mpfVal y => .ok (.boolVal (almosteq defaultPrec x y))
    | _, _ => .ok (.boolVal (pyEqB a b))
  | _ => .error ⟨.hostError, "impl arity"⟩

/-- The `*` builtin exactly as registered in `builtins.py`:
`[Num,Num] → fmul`; commutative `[str,Num]` and `[List,Num]` with the
`mul_integer` validator on the number; explicit errors for `[str,str]`
and `[List,List]`. -/
def mulBuiltin : Builtin :=
  (((((mkBuiltin "*" false emptyHelp).add
      [.num, .num] .num fmulImpl [] none false emptyHelp).add
      [.str, .num] .str strMulImpl [none, some mulInteger] none true emptyHelp).add
      [.listT, .num] .listT listMulImpl [none, some mulInteger] none true emptyHelp).error
      [.str, .str] "Cannot multiply two strings").error
      [.listT, .listT] "Cannot multiply two lists"

/-- The `/` builtin as registered in `builtins.py`: one `[Num, Num]`
overload dispatching to `division`. -/
def divBuiltin : Builtin :=
  (mkBuiltin "/" false emptyHelp).add [.num, .num] .num divImpl [] none false emptyHelp

/-- The `==` builtin as registered in `builtins.py` (`eval_lists=True`):
one `[Any, Any]` overload. -/
def eqBuiltin : Builtin :=
  (mkBuiltin "==" true emptyHelp).add [.any, .any] .bool eqImpl [] none false emptyHelp

/-! ### MD5 (`hashlib.md5(...).hexdigest()` as used by `modules._id`)

A direct implementation of RFC 1321 over byte lists, with 32-bit words as
`Nat` reduced mod `2^32`.  Module paths are ASCII, so `str.encode()` is
modelled by the code points. -/

namespace MD5

/-- `2^32`. -/
def M32 : Nat := 4294967296

/-- 32-bit left rotation. -/
def rotl (x c : Nat) : Nat := ((x <<< c) % M32) ||| (x >>> (32 - c))

/-- The per-round left-rotation amounts. -/
def S : List Nat :=
  [7, 12, 17, 22, 7, 12, 17, 22, 7, 12, 17, 22, 7, 12, 17, 22,
   5, 9, 14, 20, 5, 9, 14, 20, 5, 9, 14, 20, 5, 9, 14, 20,
   4, 11, 16, 23, 4, 11, 16, 23, 4, 11, 16, 23, 4, 11, 16, 23,
   6, 10, 15, 21, 6, 10, 15, 21, 6, 10, 15, 21, 6, 10, 15, 21]

/-- The round constants `K[i] = floor(2^32 * |sin(i + 1)|)`. -/
def K : List Nat :=
  [3614090360, 3905402710, 606105819, 3250441966, 4118548399, 1200080426,
   2821735955, 4249261313, 1770035416, 2336552879, 4294925233, 2304563134,
   1804603682, 4254626195, 2792965006, 1236535329, 4129170786, 3225465664,
   643717713, 3921069994, 3593408605, 38016083, 3634488961, 3889429448,
   568446438, 3275163606, 4107603335, 1163531501, 2850285829, 4243563512,
   1735328473, 2368359562, 4294588738, 2272392833, 1839030562, 4259657740,
   2763975236, 1272893353, 4139469664, 3200236656, 681279174, 3936430074,
   3572445317, 76029189, 3654602809, 3873151461, 530742520, 3299628645,
   4096336452, 1126891415, 2878612391, 4237533241, 1700485571, 2399980690,
   4293915773, 2240044497, 1873313359, 4264355552, 2734768916, 1309151649,
   4149444226, 3174756917, 718787259, 3951481745]

/-- Little-endian byte decomposition. -/
def toLE (v nbytes : Nat) : List Nat :=
  (List.range nbytes).map (fun i => (v >>> (8 * i)) % 256)

/-- MD5 padding: `0x80`, zeros to 56 mod 64, the bit length in 8 LE bytes. -/
def padMsg (bytes : List Nat) : List Nat :=
  bytes ++ [128] ++ List.replicate ((56 + 64 - (bytes.length + 1) % 64) % 64) 0 ++
    toLE (bytes.length * 8) 8

/-- The `g`-th little-endian 32-bit word of a 64-byte chunk. -/
def word (chunk : List Nat) (g : Nat) : Nat :=
  chunk.getD (4 * g) 0 + 256 * chunk.getD (4 * g + 1) 0 +
    65536 * chunk.getD (4 * g + 2) 0 + 16777216 * chunk.getD (4 * g + 3) 0

/-- One MD5 round. -/
def mdRound (chunk : List Nat) (st : Nat × Nat × Nat × Nat) (i : Nat) :
    Nat × Nat × Nat × Nat :=
  let a := st.1
  let b := st.2.1
  let c := st.2.2.1
  let d := st.2.2.2
  let fg : Nat × Nat :=
    if i < 16 then ((b &&& c) ||| (((M32 - 1) ^^^ b) &&& d), i)
    else if i < 32 then ((d &&& b) ||| (((M32 - 1) ^^^ d) &&& c), (5 * i + 1) % 16)
    else if i < 48 then (b ^^^ c ^^^ d, (3 * i + 5) % 16)
    else (c ^^^ (b ||| ((M32 - 1) ^^^ d)), (7 * i) % 16)
  let f := (fg.1 + a + K.getD i 0 + word chunk fg.2) % M32
  (d, (b + rotl f (S.getD i 0)) % M32, b, c)

/-- Process one 64-byte chunk. -/
def processChunk (st : Nat × Nat × Nat × Nat) (chunk : List Nat) :
    Nat × Nat × Nat × Nat :=
  let r := (List.range 64).foldl (mdRound chunk) st
  ((st.1 + r.1) % M32, (st.2.1 + r.2.1) % M32,
   (st.2.2.1 + r.2.2.1) % M32, (st.2.2.2 + r.2.2.2) % M32)

/-- Split into 64-byte chunks (fuel-bounded by the list length). -/
def chunksGo : Nat → List Nat → List (List Nat)
  | 0, _ => []
  | _ + 1, [] => []
  | n + 1, l => l.take 64 :: chunksGo n (l.drop 64)

/-- All 64-byte chunks of a padded message. -/
def chunksOf (l : List Nat) : List (List Nat) := chunksGo l.length l

/-- One hex digit. -/
def hexDigit (n : Nat) : Char := "0123456789abcdef".data.getD n '0'

/-- Two-digit lowercase hex of a byte. -/
def byteHex (b : Nat) : String := String.mk [hexDigit (b / 16), hexDigit (b % 16)]

/-- The 32-character lowercase hex digest. -/
def digestHex (a b c d : Nat) : String :=
  String.join ((toLE a 4 ++ toLE b 4 ++ toLE c 4 ++ toLE d 4).map byteHex)

/-- `hashlib.md5(s.encode()).hexdigest()` for ASCII strings. -/
def md5hex (s : String) : String :=
  let bytes := s.data.map (fun c => c.toNat)
  let st := (chunksOf (padMsg bytes)).foldl processChunk
    (1732584193, 4023233417, 2562383102, 271733878)
  digestHex st.1 st.2.1 st.2.2.1 st.2.2.2

end MD5

/-! ### `modules.py` — the import resolver -/

/-- `modules._id(path)`: the MD5 hex digest of the path string. -/
def _id (path : String) : String := MD5.md5hex path

/-- A top-level node as the resolver sees it: an `Import` (with its listed
names and module string), a `Constant` (binding value irrelevant to
resolution), an `Export`, or any other statement. -/
inductive RNode where
  | imp (names : List String) (module : String)
  | constant (name : String)
  | expo (names : List String)
  | stmt
deriving DecidableEq

/-- `classes.Module` as populated by the resolver.  `code` (the
zlib-compressed source, used only by the error reporter) and `globals`
(populated at evaluation time) are dropped. -/
structure RModule where
  path : String
  id : String
  tree : List RNode
  exports : List String
  imports : List (String × String)
  depth : Nat

/-- Resolver state: the module table `self.modules` (a Python dict keyed
by module id, insertion-ordered), the import stack, and `self.path`. -/
structure RState where
  modules : List (String × RModule)
  stack : List String
  path : String

/-- The model filesystem: path → parsed top-level nodes (reading and
parsing a source file are collapsed into a lookup; the parser is an
external collaborator). -/
abbrev FS := List (String × List RNode)

/-- Split a character list at a separator (Python `str.split(sep)`). -/
def splitOnChar (sep : Char) (l : List Char) : List (List Char) :=
  l.foldr (fun c acc =>
    match acc with
    | cur :: rest => if c = sep then [] :: cur :: rest else (c :: cur) :: rest
    | [] => [[c]]) [[]]

/-- The `/`-separated components of a path. -/
def splitSlash (s : String) : List String := (splitOnChar '/' s.data).map String.mk

/-- `sep.join(ps)` (the core `String.intercalate` does not reduce in the
kernel). -/
def joinWith (sep : String) : List String → String
  | [] => ""
  | p :: rest => rest.foldl (fun acc q => acc ++ sep ++ q) p

/-- `Path(p).parent` for slash-separated, dot-free paths. -/
def pathParent (p : String) : String :=
  let parts := (splitSlash p).dropLast
  if parts.isEmpty then "." else joinWith "/" parts

/-- `Path(dir) / name`. -/
def pathJoin (dir name : String) : String := dir ++ "/" ++ name

/-- `Path(p).resolve().absolute()` for already-absolute paths: collapse
`.` and `..` segments. -/
def pathResolve (p : String) : String :=
  joinWith "/" ((splitSlash p).foldl (fun acc part =>
    if part = "." then acc
    else if part = ".." then acc.dropLast
    else acc ++ [part]) [])

/-- `Path(p).stem`: the final component without its last suffix
(dot-leading file names are not used here). -/
def pathStem (p : String) : String :=
  let name := (splitSlash p).getLastD ""
  let parts := (splitOnChar '.' name.data).map String.mk
  if parts.length ≤ 1 then name else joinWith "." parts.dropLast

/-- Directory existence in the model filesystem: some file lives under it. -/
def dirExists (fs : FS) (p : String) : Bool :=
  fs.any (fun f => pyStartsWith f.1 (p ++ "/"))

/-- Ordered-dict assignment `m[k] = v`: overwrite in place or append. -/
def dictSet (m : List (String × String)) (k v : String) : List (String × String) :=
  if m.any (fun p => p.1 = k) then m.map (fun p => if p.1 = k then (k, v) else p)
  else m ++ [(k, v)]

/-- Ordered-dict `m.update(kvs)`. -/
def dictUpdate (m kvs : List (String × String)) : List (String × String) :=
  kvs.foldl (fun acc p => dictSet acc p.1 p.2) m

/-- Ordered-dict assignment for the module table. -/
def modSet (m : List (String × RModule)) (k : String) (v : RModule) :
    List (String × RModule) :=
  if m.any (fun p => p.1 = k) then m.map (fun p => if p.1 = k then (k, v) else p)
  else m ++ [(k, v)]

/-- `" -> ".join(f"'{p}'" for p in cycle)`. -/
def joinArrow (ps : List String) : String :=
  joinWith " -> " (ps.map (fun p => "\x27" ++ p ++ "\x27"))

/-- The cycle-error message raised by `ImportResolver.file`/`folder`:
the stack from the first occurrence of the repeated path, closed by that
path again. -/
def cycleMsg (stack : List String) (path : String) : String :=
  "Circular import detected:\n" ++
    joinArrow (stack.drop (stack.findIdx (fun q => q = path)) ++ [path])

/-- The stdlib table of `ImportResolver.stdlib`: the builtin-group export
names (attribute names, with registered builtin names taking precedence,
in class-declaration order), or `none` for the `builtins` entry whose
group is `None`. -/
def stdlibGroupNames : String → Option (List String)
  | "math" => some ["pi", "e", "sin", "cos", "tan", "asin", "acos", "atan", "atan2",
      "sinh", "cosh", "tanh", "asinh", "acosh", "atanh", "exp", "log", "log10",
      "sqrt", "ceil", "floor", "round", "sign", "abs", "max", "min", "sum",
      "radians", "degrees"]
  | "std" => some ["append", "length", "contains", "set", "reverse", "sort",
      "slice", "join", "split", "format", "trim", "toLowerCase", "toUpperCase",
      "replace", "count", "range"]
  | "io" => some ["print", "println", "input"]
  | "sys" => some ["time"]
  | "random" => some ["random", "seed"]
  | "types" => some ["isnan", "isinf", "Bool", "Number", "List", "String"]
  | _ => none

/-- The stdlib module names. -/
def stdlibTable : List String := ["builtins", "math", "std", "io", "sys", "random", "types"]

/-- Which stdlib entries additionally load a pre-parsed `.nfut` bundle. -/
def stdlibFileFlag : String → Bool
  | "builtins" => true
  | _ => false

/-- The import-entry construction of `ImportResolver._module` for the
zipped `(Import node, resolved path)` pairs: `import *` copies every
export, named imports are checked against the target's exports (the first
missing name raises `ImportError` with the available exports sorted, or
the does-not-export-anything suffix), bare `import foo` records
`<stem>.<name>` entries. -/
def impEntries (st : RState) :
    List (String × String) → List (List String × String × String) →
    Except (Err × RState) (List (String × String))
  | imports, [] => .ok imports
  | imports, (names, modName, p) :: rest =>
    let targetExports := match st.modules.lookup (_id p) with
      | some m => m.exports
      | none => []
    if names.length > 0 then
      if names.headD "" = "*" then
        impEntries st (dictUpdate imports (targetExports.map (fun nm => (nm, _id p)))) rest
      else
        let importedNames := names.filter (fun nm => !nm.isEmpty)
        match importedNames.find? (fun nm => !targetExports.contains nm) with
        | some missing =>
          let suggestion :=
            if targetExports.length ≠ 0 then
              " Available exports are: " ++
                joinWith ", " (targetExports.dedup.mergeSort (fun a b => a ≤ b))
            else " This module does not export anything."
          .error (⟨.importError,
            "Module \x27" ++ modName ++ "\x27 does not export an identifier named \x27" ++
              missing ++ "\x27." ++ suggestion⟩, st)
        | none =>
          impEntries st (dictUpdate imports (names.map (fun nm => (nm, _id p)))) rest
    else
      impEntries st
        (dictUpdate imports (targetExports.map (fun nm => (pathStem p ++ "." ++ nm, _id p)))) rest

mutual

/-- `ImportResolver.stdlib`: short-circuit on an already-registered id,
then build the module tree from the builtin group (constants plus one
`Export` of every name) and/or the shipped pre-parsed bundle, register it
with `builtins=False`, and return the module name as its path. -/
def stdlibR (fs : FS) (bundle : List RNode) :
    Nat → String → RState → Except (Err × RState) (Option String × RState)
  | 0, _, st => .error (⟨.fuel, "resolver fuel exhausted"⟩, st)
  | fuel + 1, modName, st =>
    if (st.modules.lookup (_id modName)).isSome then .ok (some modName, st)
    else if stdlibTable.contains modName then
      let tree : List RNode := match stdlibGroupNames modName with
        | some names => (names.map RNode.constant) ++ [RNode.expo names]
        | none => []
      let tree := tree ++ (if stdlibFileFlag modName then bundle else [])
      match moduleR fs bundle fuel modName tree false st with
      | .error e => .error e
      | .ok (_, st2) => .ok (some modName, st2)
    else .ok (none, st)

/-- `ImportResolver.file`: compute
`(dirname(self.path) / (name + ".nfu")).resolve()`, short-circuit on an
already-registered id, fall through when the file does not exist, raise
the circular-import `ImportError` when the path is already on the import
stack, otherwise push the path, load the module, and pop (also on error,
as the `finally` does). -/
def fileR (fs : FS) (bundle : List RNode) :
    Nat → String → RState → Except (Err × RState) (Option String × RState)
  | 0, _, st => .error (⟨.fuel, "resolver fuel exhausted"⟩, st)
  | fuel + 1, modName, st =>
    let dir := if pyEndsWith st.path "/" then st.path else pathParent st.path
    let path := pathResolve (pathJoin dir (modName ++ ".nfu"))
    if (st.modules.lookup (_id path)).isSome then .ok (some path, st)
    else if (fs.lookup path).isNone then .ok (none, st)
    else if st.stack.contains path then
      .error (⟨.importError, cycleMsg st.stack path⟩, st)
    else
      let st2 := { st with stack := st.stack ++ [path] }
      match fs.lookup path with
      | none => .ok (none, st2)
      | some tree =>
        match moduleR fs bundle fuel path tree true st2 with
        | .error ep => .error (ep.1, { ep.2 with stack := ep.2.stack.dropLast })
        | .ok (_, st3) => .ok (some path, { st3 with stack := st3.stack.dropLast })

/-- `ImportResolver.folder`: like `file` but for `<name>/index.nfu`, with
the directory and index-file existence checks before the registered-id
short-circuit. -/
def folderR (fs : FS) (bundle : List RNode) :
    Nat → String → RState → Except (Err × RState) (Option String × RState)
  | 0, _, st => .error (⟨.fuel, "resolver fuel exhausted"⟩, st)
  | fuel + 1, modName, st =>
    let dir := if pyEndsWith st.path "/" then st.path else pathParent st.path
    let folderPath := pathResolve (pathJoin dir modName)
    if !dirExists fs folderPath then .ok (none, st)
    else
      let indexPath := pathJoin folderPath "index.nfu"
      if (fs.lookup indexPath).isNone then .ok (none, st)
      else if (st.modules.lookup (_id indexPath)).isSome then .ok (some indexPath, st)
      else if st.stack.contains indexPath then
        .error (⟨.importError, cycleMsg st.stack indexPath⟩, st)
      else
        let st2 := { st with stack := st.stack ++ [indexPath] }
        match fs.lookup indexPath with
        | none => .ok (none, st2)
        | some tree =>
          match moduleR fs bundle fuel indexPath tree true st2 with
          | .error ep => .error (ep.1, { ep.2 with stack := ep.2.stack.dropLast })
          | .ok (_, st3) => .ok (some indexPath, { st3 with stack := st3.stack.dropLast })

/-- `ImportResolver._resolve`: walk the leading `Import` nodes (the loop
breaks at the first non-import), trying `file`, `folder`, `stdlib` in
precedence order with `self.path` set to the loading module's path and
restored afterwards; exhaustion of the precedence list raises the
cannot-find `ImportError`. -/
def resolveImportsR (fs : FS) (bundle : List RNode) :
    Nat → List RNode → String → RState → Except (Err × RState) (List String × RState)
  | 0, _, _, st => .error (⟨.fuel, "resolver fuel exhausted"⟩, st)
  | fuel + 1, nodes, path, st =>
    match nodes with
    | .imp _ modName :: rest =>
      let originalPath := st.path
      let st1 := { st with path := path }
      let afterTry : Except (Err × RState) (Option String × RState) :=
        match fileR fs bundle fuel modName st1 with
        | .error e => .error e
        | .ok (some p, stA) => .ok (some p, stA)
        | .ok (none, stA) =>
          match folderR fs bundle fuel modName stA with
          | .error e => .error e
          | .ok (some p, stB) => .ok (some p, stB)
          | .ok (none, stB) => stdlibR fs bundle fuel modName stB
      match afterTry with
      | .error e => .error e
      | .ok (none, stC) =>
        .error (⟨.importError, "Cannot find module \"" ++ modName ++ "\""⟩, stC)
      | .ok (some p, stC) =>
        let stD := { stC with path := originalPath }
        match resolveImportsR fs bundle fuel rest path stD with
        | .error e => .error e
        | .ok (ps, stE) => .ok (p :: ps, stE)
    | _ => .ok ([], st)

/-- `ImportResolver._module`: pre-populate the imports with every export
of the `builtins` module mapped to the string `"builtins"` (unless
`builtins=False`), resolve the leading imports recursively, record the import
entries from the zipped `(Import node, resolved path)` pairs, and
register the module under `_id(path)` with its filtered tree, exports and
the current stack depth. -/
def moduleR (fs : FS) (bundle : List RNode) :
    Nat → String → List RNode → Bool → RState → Except (Err × RState) (Unit × RState)
  | 0, _, _, _, st => .error (⟨.fuel, "resolver fuel exhausted"⟩, st)
  | fuel + 1, path, tree, bflag, st =>
    let imports0 : List (String × String) :=
      if bflag then
        match st.modules.lookup (_id "builtins") with
        | some m => m.exports.map (fun e => (e, "builtins"))
        | none => []
      else []
    match resolveImportsR fs bundle fuel tree path st with
    | .error e => .error e
    | .ok (importPaths, st2) =>
      let importNodes := tree.filterMap (fun n => match n with
        | .imp names modName => some (names, modName)
        | _ => none)
      let zipped := (importNodes.zip importPaths).map (fun pr => (pr.1.1, pr.1.2, pr.2))
      match impEntries st2 imports0 zipped with
      | .error e => .error e
      | .ok finalImports =>
        let m : RModule :=
          { path := path
            id := _id path
            tree := tree.filter (fun n => match n with
              | .constant nm => !nm.isEmpty
              | .imp _ _ => true
              | .expo _ => true
              | .stmt => false)
            exports := (tree.filterMap (fun n => match n with
              | .expo ns => some ns
              | _ => none)).flatten
            imports := finalImports
            depth := st2.stack.length }
        .ok ((), { st2 with modules := modSet st2.modules (_id path) m })

end

/-- `ImportResolver.resolve(tree, path, code)`: load the `builtins` stdlib
module first, then the main module (with builtins pre-population), and
return the module table. -/
def resolveR (fs : FS) (bundle : List RNode) (fuel : Nat) (tree : List RNode)
    (path : String) : Except (Err × RState) RState :=
  let st : RState := ⟨[], [], path⟩
  match stdlibR fs bundle fuel "builtins" st with
  | .error e => .error e
  | .ok (_, st2) =>
    match moduleR fs bundle fuel path tree true st2 with
    | .error e => .error e
    | .ok (_, st3) => .ok st3

/-- Modelled from the spec: the pre-parsed stdlib bundle
`numfu/stdlib/builtins.nfut` shipped inside the package is not under
`src/`; per spec §4.4 the `builtins` stdlib module is loaded from it and
publishes exports with which every other module's imports are
pre-populated.  It is modelled as a bundle declaring and exporting one
representative name. -/
def builtinsBundle : List RNode := [.constant "identity", .expo ["identity"]]

/-- The resolver-table invariant verified for C2: every key of the module
table is the MD5 id of the registered module's path, and every value in
any registered module's `imports` is either the literal string
`"builtins"` or a key of the table. -/
def RInv (st : RState) : Prop :=
  ∀ pr ∈ st.modules, pr.1 = _id pr.2.path ∧
    ∀ e ∈ pr.2.imports, e.2 = "builtins" ∨ e.2 ∈ st.modules.map Prod.fst

/-- Invariant-preservation statement for `stdlibR` at a given fuel:
successful runs preserve `RInv`, only grow the key set, and a returned
path is registered under its id. -/
def PStd (fs : FS) (bundle : List RNode) (fuel : Nat) : Prop :=
  ∀ modName st res st2, RInv st →
    stdlibR fs bundle fuel modName st = .ok (res, st2) →
    RInv st2 ∧ (∀ x ∈ st.modules.map Prod.fst, x ∈ st2.modules.map Prod.fst) ∧
      ∀ p, res = some p → _id p ∈ st2.modules.map Prod.fst

/-- Invariant-preservation statement for `fileR` at a given fuel. -/
def PFile (fs : FS) (bundle : List RNode) (fuel : Nat) : Prop :=
  ∀ modName st res st2, RInv st →
    fileR fs bundle fuel modName st = .ok (res, st2) →
    RInv st2 ∧ (∀ x ∈ st.modules.map Prod.fst, x ∈ st2.modules.map Prod.fst) ∧
      ∀ p, res = some p → _id p ∈ st2.modules.map Prod.fst

/-- Invariant-preservation statement for `folderR` at a given fuel. -/
def PFolder (fs : FS) (bundle : List RNode) (fuel : Nat) : Prop :=
  ∀ modName st res st2, RInv st →
    folderR fs bundle fuel modName st = .ok (res, st2) →
    RInv st2 ∧ (∀ x ∈ st.modules.map Prod.fst, x ∈ st2.modules.map Prod.fst) ∧
      ∀ p, res = some p → _id p ∈ st2.modules.map Prod.fst

/-- Invariant-preservation statement for `resolveImportsR` at a given
fuel: additionally, every returned resolved path is registered. -/
def PResolve (fs : FS) (bundle : List RNode) (fuel : Nat) : Prop :=
  ∀ nodes path st ps st2, RInv st →
    resolveImportsR fs bundle fuel nodes path st = .ok (ps, st2) →
    RInv st2 ∧ (∀ x ∈ st.modules.map Prod.fst, x ∈ st2.modules.map Prod.fst) ∧
      ∀ p ∈ ps, _id p ∈ st2.modules.map Prod.fst

/-- Invariant-preservation statement for `moduleR` at a given fuel:
additionally, the loaded module is registered under `_id path`. -/
def PModule (fs : FS) (bundle : List RNode) (fuel : Nat) : Prop :=
  ∀ path tree bflag st st2, RInv st →
    moduleR fs bundle fuel path tree bflag st = .ok ((), st2) →
    RInv st2 ∧ (∀ x ∈ st.modules.map Prod.fst, x ∈ st2.modules.map Prod.fst) ∧
      _id path ∈ st2.modules.map Prod.fst

/-! ### Concrete claim scenarios -/

/-- Is the value an evaluated mpf (`isinstance(x, mpm.mpf)`)? -/
def isMpfV : Expr → Bool
  | .mpfVal _ => true
  | _ => false

/-- `{x -> {y -> x}}` — a closure factory whose inner closure captures `x`. -/
def lamCapture : Expr := .lam ["x"] (.lam ["y"] (.var "x") []) []

/-- `{x -> {y -> x}}(42)(7)` — the direct call of the capturing closure. -/
def c1Direct : Expr := .call (.call lamCapture [.numLit (.fin 42)]) [.numLit (.fin 7)]

/-- `{x -> {y -> x}}(42)(_)` — the placeholder call of the capturing closure. -/
def c1Stage : Expr := .call (.call lamCapture [.numLit (.fin 42)]) [.var "_"]

/-- `{x -> {y -> x}}(42)(_)(7)` — filling the placeholder afterwards. -/
def c1Partial : Expr := .call c1Stage [.numLit (.fin 7)]

/-- `{p, q -> p}(_, ...[1])` — a call mixing a placeholder argument with a
spread in a different position. -/
def c6Prog : Expr :=
  .call (.lam ["p", "q"] (.var "p") [])
    [.var "_", .spread (.listE [.numLit (.fin 1)] [])]

/-- Filesystem for the C2 scenario: one importable module exporting `x`. -/
def c2Fs : FS := [("/w/b.nfu", [RNode.constant "x", RNode.expo ["x"]])]

/-- Filesystem for the C7 scenario: `a.nfu` and `b.nfu` import each other. -/
def c7Fs : FS := [("/w/a.nfu", [RNode.imp [] "b"]), ("/w/b.nfu", [RNode.imp [] "a"])]

/-! ## Theorems -/

set_option maxRecDepth 100000


/-- **C1** (code bug): the spec (§4.3.1, §8.1) requires a placeholder
partial application of a closure `L`, subsequently filled, to equal the
direct call; the code's `_partial_lambda` starts from `state.env.copy()`
alone and drops `L.curry`, so a closure whose captured bindings are not in
the caller's environment loses them.  Here `L = {y -> x}` with captured
`x = 42`: the direct call `L(7)` yields `42`; `L(_)` does return a closure
(whose environment is missing `x`), and filling it, `L(_)(7)`, raises
`NameError` instead of returning `42`. -/
theorem C1_placeholder_partial_drops_captured_env :
    evalE stdCfg 100 c1Direct false [] = .ok (.mpfVal (.fin 42)) ∧
    evalE stdCfg 100 c1Stage false [] = .ok (.lam ["y"] (.var "x") []) ∧
    evalE stdCfg 100 c1Partial false [] =
      .error ⟨.nameError, "\x27x\x27 is not defined in the current scope"⟩ :=
  ⟨rfl, rfl, rfl⟩

/-- **C4** (confirmed): for `a && b` and `a || b` the interpreter
evaluates `a` first; when `a` already determines the result the call
returns that boolean without touching `b` (the equations do not mention
`b`), and otherwise the result is exactly the truthiness of `b`'s value
(errors of `b` propagate), so `b` is evaluated precisely when `a` does not
determine the result, and both calls return a boolean. -/
theorem C4_short_circuit (n : Nat) (a b : Expr) (env : Env) (va : Expr)
    (h : evalE stdCfg n a false env = .ok va) :
    (truthy va = false →
      evalE stdCfg (n + 1) (.call (.var "&&") [a, b]) false env = .ok (.boolVal false)) ∧
    (truthy va = true →
      evalE stdCfg (n + 1) (.call (.var "&&") [a, b]) false env =
        (evalE stdCfg n b false env).map (fun vb => .boolVal (truthy vb))) ∧
    (truthy va = true →
      evalE stdCfg (n + 1) (.call (.var "||") [a, b]) false env = .ok (.boolVal true)) ∧
    (truthy va = false →
      evalE stdCfg (n + 1) (.call (.var "||") [a, b]) false env =
        (evalE stdCfg n b false env).map (fun vb => .boolVal (truthy vb))) := by
  refine ⟨fun hva => ?_, fun hva => ?_, fun hva => ?_, fun hva => ?_⟩ <;>
    · simp only [evalE, List.get?]
      rw [h]
      simp only [hva]
      cases hb : evalE stdCfg n b false env <;> simp [Except.map]

/-- **C4 witness**: with a falsy left operand, `&& ` returns `false` even
when the right operand would raise (`zzz` is unbound). -/
theorem C4_short_circuit_witness :
    evalE stdCfg 2 (.call (.var "&&") [.boolLit false, .var "zzz"]) false [] =
      .ok (.boolVal false) :=
  (C4_short_circuit 1 (.boolLit false) (.var "zzz") [] (.boolVal false) rfl).1 rfl

/-- **C9** (confirmed): `builtins.division` is total and never raises —
`mpmath.fdiv` raises `ZeroDivisionError` for every zero divisor, and the
wrapper catches it, returning `nan` when the dividend is zero, `+inf` when
it is positive (including `+inf`), `-inf` when it is negative (including
`-inf`); for a nonzero finite divisor the quotient is returned (exactly,
in this model; mpmath rounds it to the working precision).  The `/`
builtin dispatches any two numbers to `division`. -/
theorem C9_division_total :
    (∀ a : MpF, MpF.fdiv a (.fin 0) = .error ()) ∧
    division (.fin 0) (.fin 0) = .nan ∧
    (∀ q : ℚ, 0 < q → division (.fin q) (.fin 0) = .inf) ∧
    division .inf (.fin 0) = .inf ∧
    (∀ q : ℚ, q < 0 → division (.fin q) (.fin 0) = .ninf) ∧
    division .ninf (.fin 0) = .ninf ∧
    (∀ a b : ℚ, b ≠ 0 → division (.fin a) (.fin b) = .fin (a / b)) ∧
    (∀ a b : MpF, divBuiltin.call [.mpfVal a, .mpfVal b] = .ok (.mpfVal (division a b))) := by
  refine ⟨?_, rfl, ?_, rfl, ?_, rfl, ?_, ?_⟩
  · intro a
    cases a <;> simp [MpF.fdiv]
  · intro q hq
    have h0 : ¬ q = 0 := by intro h; rw [h] at hq; exact lt_irrefl 0 hq
    simp [division, MpF.fdiv, MpF.pyEq, MpF.pyGt, h0, hq]
  · intro q hq
    have h0 : ¬ q = 0 := by intro h; rw [h] at hq; exact lt_irrefl 0 hq
    have hng : ¬ q > 0 := not_lt.mpr (le_of_lt hq)
    simp [division, MpF.fdiv, MpF.pyEq, MpF.pyGt, h0, hng]
  · intro a b hb
    simp [division, MpF.fdiv, hb]
  · intro a b
    simp [Builtin.call, divBuiltin, mkBuiltin, Builtin.add, dispatchGo, expandTypes,
      enumRev, scanArgs, check_type, checkTypeF, tySize, tySizeList, specialNames, divImpl, Builtin.isOperator]

/-- **C9 witness**: the zero-divisor clauses at concrete inputs:
`5 / 0 = +inf`, `(-2) / 0 = -inf`, `6 / 3 = 2`. -/
theorem C9_division_total_witness :
    division (.fin 5) (.fin 0) = .inf ∧
    division (.fin (-2)) (.fin 0) = .ninf ∧
    division (.fin 6) (.fin 3) = .fin 2 := by
  refine ⟨C9_division_total.2.2.1 5 (by norm_num),
    C9_division_total.2.2.2.2.1 (-2) (by norm_num), ?_⟩
  have h := C9_division_total.2.2.2.2.2.2.1 6 3 (by norm_num)
  rw [h]
  norm_num

/-- **C10** (confirmed): the `==` builtin compares two Numbers with
`mpmath.almosteq` at the working precision (53 bits for the default 15
decimal digits), so it is tolerance-based: the distinct pair
`1` and `1 + 2^-50` compares equal.  Any operand pair that is not two
Numbers falls back to Python structural equality (`a == b`); in
particular two strings compare by string equality. -/
theorem C10_eq_tolerance :
    (∀ x y : MpF, eqBuiltin.call [.mpfVal x, .mpfVal y] =
      .ok (.boolVal (almosteq defaultPrec x y))) ∧
    ((1 : ℚ) ≠ 1 + 1 / 2 ^ 50 ∧
      eqBuiltin.call [.mpfVal (.fin 1), .mpfVal (.fin (1 + 1 / 2 ^ 50))] =
        .ok (.boolVal true)) ∧
    (∀ s t : String, eqBuiltin.call [.strVal s, .strVal t] =
      .ok (.boolVal (decide (s = t)))) ∧
    (∀ a b : Expr, isMpfV a = false →
      eqBuiltin.call [a, b] = .ok (.boolVal (pyEqB a b))) := by
  have hnum : ∀ x y : MpF, eqBuiltin.call [.mpfVal x, .mpfVal y] =
      .ok (.boolVal (almosteq defaultPrec x y)) := by
    intro x y
    simp [Builtin.call, eqBuiltin, mkBuiltin, Builtin.add, dispatchGo, expandTypes,
      enumRev, scanArgs, check_type, checkTypeF, tySize, tySizeList, specialNames, eqImpl, Builtin.isOperator]
  have hprec : defaultPrec = 53 := by
    norm_num [defaultPrec, dpsToPrec, round_eq]
    rfl
  have htol : almosteq defaultPrec (.fin 1) (.fin (1 + 1 / 2 ^ 50)) = true := by
    rw [hprec]
    simp [almosteq, MpF.sub, MpF.abs, MpF.pyLe, MpF.pyGt, MpF.pyEq]
    refine Or.inl (Or.inl ?_)
    rw [abs_of_pos (by positivity)]
    norm_num
  refine ⟨hnum, ⟨by norm_num, by rw [hnum, htol]⟩, ?_, ?_⟩
  · intro s t
    simp [Builtin.call, eqBuiltin, mkBuiltin, Builtin.add, dispatchGo, expandTypes,
      enumRev, scanArgs, check_type, checkTypeF, tySize, tySizeList, specialNames, eqImpl, Builtin.isOperator, pyEqB]
  · intro a b ha
    have hcall : eqBuiltin.call [a, b] = eqImpl [a, b] := by
      simp [Builtin.call, eqBuiltin, mkBuiltin, Builtin.add, dispatchGo, expandTypes,
        enumRev, scanArgs, check_type, checkTypeF, tySize, tySizeList, specialNames, Builtin.isOperator]
    rw [hcall]
    cases a <;> simp_all [eqImpl, isMpfV]

/-- **C10 witness**: the fallback clause at a concrete non-Number pair. -/
theorem C10_eq_tolerance_witness :
    eqBuiltin.call [.strVal "x", .boolVal true] = .ok (.boolVal false) := by
  have h := C10_eq_tolerance.2.2.2 (.strVal "x") (.boolVal true) rfl
  rw [h]
  rfl

/-- Reduction of `_index`'\''s core on a List target with an in-range
integer index (helper): the checks pass and the (negativity-adjusted)
element is fetched. -/
theorem indexCoreF_list_int (ev : Expr → Env → Except Err Expr) (es : List Expr)
    (curry : Env) (k : Int)
    (hr : ¬ ((es.length : Int) ≤ k ∨ k < -(es.length : Int))) :
    indexCoreF ev (.listE es curry) (.mpfVal (.fin (k : ℚ))) =
      match es.get? (if k < 0 then (es.length : Int) + k else k).toNat with
      | some e => ev e curry
      | none => .error ⟨.hostError, "IndexError"⟩ := by
  simp [indexCoreF, MpF.mod1NeZero, MpF.toInt, Rat.den_intCast, Rat.num_intCast, hr]

/-- Reduction of `_index`'\''s core on a String target with an in-range
integer index (helper). -/
theorem indexCoreF_str_int (ev : Expr → Env → Except Err Expr) (s : String)
    (k : Int) (hr : ¬ ((s.length : Int) ≤ k ∨ k < -(s.length : Int))) :
    indexCoreF ev (.strVal s) (.mpfVal (.fin (k : ℚ))) =
      match s.data.get? (if k < 0 then (s.length : Int) + k else k).toNat with
      | some c => .ok (.strVal (String.mk [c]))
      | none => .error ⟨.hostError, "IndexError"⟩ := by
  simp [indexCoreF, MpF.mod1NeZero, MpF.toInt, Rat.den_intCast, Rat.num_intCast, hr]

/-- **C5** (confirmed): indexing a List or a String by a Number: a
fractional index raises `TypeError`; an integer index `k` with
`len(target) <= k` or `k < -len(target)` raises `IndexError`; an in-range
negative index is equivalent to `len(target) + k`, i.e.
`xs[-j] == xs[len(xs) - j]`; an in-range index on a List evaluates the
selected element in the list'\''s `curry` environment (the passed `ev` at
that environment), and on a String returns the selected character; and
`Index` evaluation is exactly: evaluate target, evaluate index, run this
core. -/
theorem C5_indexing (ev : Expr → Env → Except Err Expr) (es : List Expr)
    (curry : Env) (s : String) (q : ℚ) (k : Int) :
    (q.den ≠ 1 →
      indexCoreF ev (.listE es curry) (.mpfVal (.fin q)) =
        .error ⟨.typeError, "List index must be an integer, not a floating-point number"⟩ ∧
      indexCoreF ev (.strVal s) (.mpfVal (.fin q)) =
        .error ⟨.typeError, "String index must be an integer, not a floating-point number"⟩) ∧
    ((es.length : Int) ≤ k ∨ k < -(es.length : Int) →
      indexCoreF ev (.listE es curry) (.mpfVal (.fin (k : ℚ))) =
        .error ⟨.indexError, "List index out of range"⟩) ∧
    (-(es.length : Int) ≤ k → k < 0 →
      indexCoreF ev (.listE es curry) (.mpfVal (.fin (k : ℚ))) =
        indexCoreF ev (.listE es curry) (.mpfVal (.fin (((es.length : Int) + k : Int) : ℚ)))) ∧
    (∀ e, 0 ≤ k → es.get? k.toNat = some e →
      indexCoreF ev (.listE es curry) (.mpfVal (.fin (k : ℚ))) = ev e curry) ∧
    (∀ c, 0 ≤ k → s.data.get? k.toNat = some c →
      indexCoreF ev (.strVal s) (.mpfVal (.fin (k : ℚ))) = .ok (.strVal (String.mk [c]))) ∧
    (∀ (n : Nat) (t i : Expr) (env : Env),
      evalE stdCfg (n + 1) (.indexE t i) false env =
        match evalE stdCfg n t false env with
        | .error er => .error er
        | .ok tv =>
          match evalE stdCfg n i false env with
          | .error er => .error er
          | .ok iv => indexCoreF (fun e2 env2 => evalE stdCfg n e2 false env2) tv iv) := by
  have hden : ((k : ℚ)).den = 1 := Rat.den_intCast k
  have htoInt : MpF.toInt (.fin (k : ℚ)) = k := by
    simp [MpF.toInt, Rat.den_intCast, Rat.num_intCast]
  refine ⟨fun hq => ⟨?_, ?_⟩, fun hk => ?_, fun hk1 hk2 => ?_, fun e hk0 hget => ?_,
    fun c hk0 hget => ?_, fun n t i env => rfl⟩
  · simp [indexCoreF, MpF.mod1NeZero, hq]
  · simp [indexCoreF, MpF.mod1NeZero, hq]
  · simp [indexCoreF, MpF.mod1NeZero, hden, htoInt, hk]
  · have hnr1 : ¬ ((es.length : Int) ≤ k ∨ k < -(es.length : Int)) := by omega
    have hnr2 : ¬ ((es.length : Int) ≤ (es.length : Int) + k ∨
        (es.length : Int) + k < -(es.length : Int)) := by omega
    rw [indexCoreF_list_int ev es curry k hnr1,
      indexCoreF_list_int ev es curry ((es.length : Int) + k) hnr2,
      if_pos hk2, if_neg (by omega : ¬ ((es.length : Int) + k < 0))]
  · have hlt : k.toNat < es.length := (List.get?_eq_some.mp hget).1
    have hnr : ¬ ((es.length : Int) ≤ k ∨ k < -(es.length : Int)) := by omega
    rw [indexCoreF_list_int ev es curry k hnr, if_neg (by omega : ¬ (k < 0)), hget]
  · have hlt : k.toNat < s.length := (List.get?_eq_some.mp hget).1
    have hnr : ¬ ((s.length : Int) ≤ k ∨ k < -(s.length : Int)) := by omega
    rw [indexCoreF_str_int ev s k hnr, if_neg (by omega : ¬ (k < 0)), hget]

/-- **C5 witness**: concrete instances — a fractional index raises
`TypeError`; index 3 on a 3-element list raises `IndexError`; index `-1`
is index `2`; index `2` evaluates the element (here to `30`) in the given
curry environment. -/
theorem C5_indexing_witness :
    indexCoreF (fun e env2 => evalE stdCfg 5 e false env2)
        (.listE [.numLit (.fin 10), .numLit (.fin 20), .numLit (.fin 30)] [])
        (.mpfVal (.fin ⟨3, 2, by norm_num, by norm_num⟩)) =
      .error ⟨.typeError, "List index must be an integer, not a floating-point number"⟩ ∧
    indexCoreF (fun e env2 => evalE stdCfg 5 e false env2)
        (.listE [.numLit (.fin 10), .numLit (.fin 20), .numLit (.fin 30)] [])
        (.mpfVal (.fin ((3 : Int) : ℚ))) =
      .error ⟨.indexError, "List index out of range"⟩ ∧
    indexCoreF (fun e env2 => evalE stdCfg 5 e false env2)
        (.listE [.numLit (.fin 10), .numLit (.fin 20), .numLit (.fin 30)] [])
        (.mpfVal (.fin ((-1 : Int) : ℚ))) =
      indexCoreF (fun e env2 => evalE stdCfg 5 e false env2)
        (.listE [.numLit (.fin 10), .numLit (.fin 20), .numLit (.fin 30)] [])
        (.mpfVal (.fin ((2 : Int) : ℚ))) ∧
    indexCoreF (fun e env2 => evalE stdCfg 5 e false env2)
        (.listE [.numLit (.fin 10), .numLit (.fin 20), .numLit (.fin 30)] [])
        (.mpfVal (.fin ((2 : Int) : ℚ))) = .ok (.mpfVal (.fin 30)) := by
  refine ⟨(C5_indexing (fun e env2 => evalE stdCfg 5 e false env2)
      [.numLit (.fin 10), .numLit (.fin 20), .numLit (.fin 30)] [] ""
      ⟨3, 2, by norm_num, by norm_num⟩ 0).1 (by norm_num) |>.1, ?_, ?_, ?_⟩
  · exact (C5_indexing (fun e env2 => evalE stdCfg 5 e false env2)
      [.numLit (.fin 10), .numLit (.fin 20), .numLit (.fin 30)] [] "" 1 3).2.1
      (by simp)
  · have h := (C5_indexing (fun e env2 => evalE stdCfg 5 e false env2)
      [.numLit (.fin 10), .numLit (.fin 20), .numLit (.fin 30)] [] "" 1 (-1)).2.2.1
      (by simp) (by norm_num)
    simpa using h
  · have h := (C5_indexing (fun e env2 => evalE stdCfg 5 e false env2)
      [.numLit (.fin 10), .numLit (.fin 20), .numLit (.fin 30)] [] "" 1 2).2.2.2.1
      (.numLit (.fin 30)) (by norm_num) rfl
    rw [h]
    rfl

/-- Composition of `_resolve_spread` over an argument-list split: once a
prefix resolves successfully, resolving the whole list appends the
resolution of the remainder (and propagates its error). -/
theorem resolveSpreadF_append (ev : Expr → Env → Except Err Expr) (env : Env)
    (pre l : List Expr) (out : List Expr)
    (h : resolveSpreadF ev pre env = .ok out) :
    resolveSpreadF ev (pre ++ l) env =
      match resolveSpreadF ev l env with
      | .ok tail => .ok (out ++ tail)
      | .error er => .error er := by
  induction pre generalizing out with
  | nil =>
    simp only [resolveSpreadF] at h
    cases h
    cases hl : resolveSpreadF ev l env <;> simp [hl]
  | cons a pre ih =>
    cases a
    case spread ex =>
      simp only [resolveSpreadF, List.cons_append, List.append_eq] at h ⊢
      cases hev : ev ex env with
      | error er => rw [hev] at h; simp at h
      | ok lst =>
        rw [hev] at h
        cases lst with
        | listE es c =>
          cases hpre : resolveSpreadF ev pre env with
          | error er => rw [hpre] at h; simp at h
          | ok tail0 =>
            rw [hpre] at h
            have hout : out = es ++ tail0 := by
              simpa using h.symm
            rw [ih tail0 hpre]
            cases hl : resolveSpreadF ev l env <;> simp [hl, hout]
        | var nm =>
          by_cases hnm : nm = "_" <;> simp [hnm] at h
        | numLit v => simp at h
        | strLit v => simp at h
        | boolLit v => simp at h
        | lam a b c => simp at h
        | call a b => simp at h
        | indexE a b => simp at h
        | cond a b c => simp at h
        | mpfVal v => simp at h
        | strVal v => simp at h
        | boolVal v => simp at h
        | bounceV a b c => simp at h
        | spread e2 => simp at h
    all_goals
      simp only [resolveSpreadF, List.cons_append, List.append_eq] at h ⊢
      cases hpre : resolveSpreadF ev pre env with
      | error er => rw [hpre] at h; simp at h
      | ok tail0 =>
        rw [hpre] at h
        have hout := h.symm
        simp only [Except.ok.injEq] at hout
        rw [ih tail0 hpre]
        cases hl : resolveSpreadF ev l env <;> simp [hl, hout]

/-- **C6** (corrected): combining a placeholder argument with a spread in
*different* positions is accepted, not rejected: `{p, q -> p}(_, ...[1])`
expands the spread, sees the placeholder, and returns a partial closure —
no error is raised, refuting the claim that any placeholder/spread
combination raises `TypeError`. -/
theorem C6_counterexample :
    evalE stdCfg 50 c6Prog false [] =
      .ok (.lam ["p"] (.var "p") [("q", .mpfVal (.fin 1))]) ∧
    ∀ er : Err, evalE stdCfg 50 c6Prog false [] ≠ .error er := by
  refine ⟨rfl, ?_⟩
  intro er h
  rw [show evalE stdCfg 50 c6Prog false [] =
      .ok (.lam ["p"] (.var "p") [("q", .mpfVal (.fin 1))]) from rfl] at h
  exact Except.noConfusion h

/-- **C6 amended** (proved): what `_resolve_spread` actually rejects: a
spread whose expression evaluates to the placeholder itself (`...`
applied to `_`) raises the dedicated `TypeError`, in any argument
position after a successfully resolved prefix; a spread of any other
non-List raises the not-iterable `TypeError`; a spread of a List splices
its elements, and a bare placeholder argument passes through — so
placeholder and spread in distinct positions are accepted. -/
theorem C6_spread_rules (ev : Expr → Env → Except Err Expr) (env : Env)
    (e : Expr) (pre rest : List Expr) (out : List Expr) (v : Expr) :
    (resolveSpreadF ev pre env = .ok out →
      ev e env = .ok (.var "_") →
      resolveSpreadF ev (pre ++ .spread e :: rest) env =
        .error ⟨.typeError, "Cannot combine spread operator with argument placeholder"⟩) ∧
    (resolveSpreadF ev pre env = .ok out →
      ev e env = .ok v →
      (match v with | .listE _ _ => False | .var _ => False | _ => True) →
      resolveSpreadF ev (pre ++ .spread e :: rest) env =
        .error ⟨.typeError, "Type \x27" ++ typeNameVal v ++ "\x27 is not iterable"⟩) ∧
    (∀ es curry tail, ev e env = .ok (.listE es curry) →
      resolveSpreadF ev rest env = .ok tail →
      resolveSpreadF ev (.spread e :: rest) env = .ok (es ++ tail)) ∧
    (∀ tail, resolveSpreadF ev rest env = .ok tail →
      resolveSpreadF ev (.var "_" :: rest) env = .ok (.var "_" :: tail)) := by
  refine ⟨fun hpre hev => ?_, fun hpre hev hv => ?_, fun es curry tail hev htail => ?_,
    fun tail htail => ?_⟩
  · rw [resolveSpreadF_append ev env pre (.spread e :: rest) out hpre]
    simp [resolveSpreadF, hev]
  · rw [resolveSpreadF_append ev env pre (.spread e :: rest) out hpre]
    cases v <;> simp_all [resolveSpreadF, hev]
  · simp [resolveSpreadF, hev, htail]
  · simp [resolveSpreadF, htail]

/-- **C6 witness**: spreading the placeholder itself (`f(..._)`) raises
the dedicated `TypeError`. -/
theorem C6_spread_rules_witness :
    resolveSpreadF (fun e env2 => evalE stdCfg 1 e false env2)
        [.spread (.var "_")] [] =
      .error ⟨.typeError, "Cannot combine spread operator with argument placeholder"⟩ :=
  (C6_spread_rules (fun e env2 => evalE stdCfg 1 e false env2) [] (.var "_") [] [] []
    (.var "_")).1 rfl rfl

/-- **C3** (corrected, counterexample): for `"a" * "b"` every overload of
`*` fails its type check (the first overload records
`argument 2 must be Number, got String`), yet dispatch raises the explicit
error-list message `Cannot multiply two strings`, not the first collected
type-error message — the error list is consulted before the collected
errors. -/
theorem C3_counterexample :
    mulBuiltin.call [.strVal "a", .strVal "b"] =
      .error ⟨.typeError, "Cannot multiply two strings"⟩ ∧
    mulBuiltin.overloads.head?.map (fun o => o.argTypes) = some [.num, .num] ∧
    scanArgs mulBuiltin emptyHelp [] (enumRev [.strVal "a", .strVal "b"] [.num, .num]) =
      .typeFail
        "Invalid argument type for operator \x27*\x27: argument 2 must be Number, got String" ∧
    "Cannot multiply two strings" ≠
      "Invalid argument type for operator \x27*\x27: argument 2 must be Number, got String" :=
  ⟨rfl, rfl, rfl, by decide⟩

/-- A `typeFail` outcome of the argument scan splits the scanned triples
into a passing prefix (the higher indices, checked first), the failing
triple whose message is recorded, and an unexamined remainder. -/
theorem scanArgs_typeFail_split (b : Builtin) (help : HelpMsg)
    (vs : List (Option Validator)) :
    ∀ (L : List (Nat × Expr × Ty)) (msg : String),
      scanArgs b help vs L = .typeFail msg →
      ∃ passed failer restL, L = passed ++ failer :: restL ∧
        (∀ p ∈ passed, check_type p.2.1 p.2.2 = true) ∧
        check_type failer.2.1 failer.2.2 = false ∧
        msg = typeFailMsg b help failer.1 failer.2.1 failer.2.2 := by
  intro L
  induction L with
  | nil => intro msg h; simp [scanArgs] at h
  | cons x rest ih =>
    intro msg h
    obtain ⟨i, arg, ty⟩ := x
    simp only [scanArgs] at h
    split at h
    · next hcond =>
      cases h
      exact ⟨[], (i, arg, ty), rest, rfl, by simp, by simpa using hcond, rfl⟩
    · next hcond =>
      have hc : check_type arg ty = true := by simpa using hcond
      split at h
      · next v hv =>
        split at h
        · simp at h
        · obtain ⟨passed, failer, restL, hL, hpassed, hfail, hmsg⟩ := ih msg h
          exact ⟨(i, arg, ty) :: passed, failer, restL, by simp [hL], by
            intro p hp2
            rcases List.mem_cons.mp hp2 with h1 | h2
            · cases h1; exact hc
            · exact hpassed p h2, hfail, hmsg⟩
      · obtain ⟨passed, failer, restL, hL, hpassed, hfail, hmsg⟩ := ih msg h
        exact ⟨(i, arg, ty) :: passed, failer, restL, by simp [hL], by
          intro p hp2
          rcases List.mem_cons.mp hp2 with h1 | h2
          · cases h1; exact hc
          · exact hpassed p h2, hfail, hmsg⟩

/-- Overloads whose (expanded) arity does not match the argument count are
skipped by the dispatch loop without recording anything. -/
theorem dispatchGo_skip (b : Builtin) (args : List Expr) :
    ∀ (pre rest : List Overload) (errors : List String),
      (∀ o ∈ pre, args.length ≠ (expandTypes o.argTypes args.length).length) →
      dispatchGo b (pre ++ rest) args errors = dispatchGo b rest args errors := by
  intro pre
  induction pre with
  | nil => intro rest errors _; rfl
  | cons o pre ih =>
    intro rest errors hpre
    simp only [List.cons_append, dispatchGo]
    rw [if_pos (hpre o (by simp))]
    exact ih rest errors (fun o2 h2 => hpre o2 (by simp [h2]))

/-- Once a type error has been collected, if every remaining overload
either arity-mismatches or again fails its type check (no transformer, no
successful dispatch, no validator raise) and no explicit error-list entry
type-matches the arguments, the loop ends by raising the **first**
collected message. -/
theorem dispatchGo_first_error (b : Builtin) (args : List Expr)
    (herr : ∀ pr ∈ b.errlist,
      ((args.zip pr.1).all (fun av => check_type av.1 av.2)) = false) :
    ∀ (ovs : List Overload) (e : String) (es : List String),
      (∀ o ∈ ovs, o.transformer = none) →
      (∀ o ∈ ovs, args.length = (expandTypes o.argTypes args.length).length →
        ∃ m, scanArgs b o.help o.validators
          (enumRev args (expandTypes o.argTypes args.length)) = .typeFail m) →
      dispatchGo b ovs args (e :: es) = .error ⟨.typeError, e⟩ := by
  intro ovs
  induction ovs with
  | nil =>
    intro e es _ _
    simp only [dispatchGo]
    have hfind : b.errlist.find?
        (fun pr => (args.zip pr.1).all (fun av => check_type av.1 av.2)) = none := by
      apply List.find?_eq_none.mpr
      intro pr hpr
      simp [herr pr hpr]
    rw [hfind]
  | cons o ovs ih =>
    intro e es htr hfail
    simp only [dispatchGo]
    by_cases ha : args.length ≠ (expandTypes o.argTypes args.length).length
    · rw [if_pos ha]
      exact ih e es (fun o2 h2 => htr o2 (by simp [h2]))
        (fun o2 h2 => hfail o2 (by simp [h2]))
    · rw [if_neg ha]
      have htro : o.transformer = none := htr o (by simp)
      obtain ⟨m, hm⟩ := hfail o (by simp) (not_ne_iff.mp ha)
      rw [htro, hm]
      have := ih e (es ++ [m]) (fun o2 h2 => htr o2 (by simp [h2]))
        (fun o2 h2 => hfail o2 (by simp [h2]))
      simpa using this

/-- **C3 amended** (proved): when the arguments reach (after the
arity-skipped prefix) a first overload whose scan records a type error,
every later arity-matching overload also only records type errors, and no
explicit error-list entry type-matches the arguments (and no transformer
is registered), dispatch raises a `TypeError` carrying the **first
collected** message; that message reports the failing overload'\''s
highest-index violating argument — all later-checked (higher-index)
positions passed — and the scan order is exactly the argument indices
from highest to lowest. -/
theorem C3_amended (b : Builtin) (args : List Expr) (pre post : List Overload)
    (ov : Overload) (msg : String)
    (hsplit : b.overloads = pre ++ ov :: post)
    (htr : ∀ o ∈ b.overloads, o.transformer = none)
    (hpre : ∀ o ∈ pre, args.length ≠ (expandTypes o.argTypes args.length).length)
    (harity : args.length = (expandTypes ov.argTypes args.length).length)
    (hscan : scanArgs b ov.help ov.validators
      (enumRev args (expandTypes ov.argTypes args.length)) = .typeFail msg)
    (hpost : ∀ o ∈ post, args.length = (expandTypes o.argTypes args.length).length →
      ∃ m, scanArgs b o.help o.validators
        (enumRev args (expandTypes o.argTypes args.length)) = .typeFail m)
    (herr : ∀ pr ∈ b.errlist,
      ((args.zip pr.1).all (fun av => check_type av.1 av.2)) = false) :
    b.call args = .error ⟨.typeError, msg⟩ ∧
    (∃ passed failer restL,
      enumRev args (expandTypes ov.argTypes args.length) = passed ++ failer :: restL ∧
      (∀ p ∈ passed, check_type p.2.1 p.2.2 = true) ∧
      check_type failer.2.1 failer.2.2 = false ∧
      msg = typeFailMsg b ov.help failer.1 failer.2.1 failer.2.2) ∧
    (enumRev args (expandTypes ov.argTypes args.length)).map (fun t => t.1) =
      (List.range args.length).reverse := by
  refine ⟨?_, scanArgs_typeFail_split b ov.help ov.validators _ msg hscan, ?_⟩
  · have hovmem : ov ∈ b.overloads := by rw [hsplit]; simp
    unfold Builtin.call
    rw [hsplit, dispatchGo_skip b args pre (ov :: post) [] hpre]
    simp only [dispatchGo]
    rw [if_neg (by simp [← harity]), htr ov hovmem, hscan]
    have hpost2 : ∀ o ∈ post, args.length = (expandTypes o.argTypes args.length).length →
        ∃ m, scanArgs b o.help o.validators
          (enumRev args (expandTypes o.argTypes args.length)) = .typeFail m :=
      hpost
    have htr2 : ∀ o ∈ post, o.transformer = none := by
      intro o ho
      exact htr o (by rw [hsplit]; simp [ho])
    simpa using dispatchGo_first_error b args herr post msg [] htr2 hpost2
  · simp only [enumRev, List.map_reverse]
    have hlen : (List.range (expandTypes ov.argTypes args.length).length).length ≤
        (args.zip (expandTypes ov.argTypes args.length)).length := by
      simp [List.length_zip, ← harity]
    rw [show (fun t : Nat × Expr × Ty => t.1) = Prod.fst from rfl,
      List.map_fst_zip _ _ hlen, ← harity]

/-- **C3 amended witness**: `/` has a single `[Num, Num]` overload, no
error list and no transformer; on `("a", "b")` the scan fails first at
argument 2 and dispatch raises exactly that first collected message. -/
theorem C3_amended_witness :
    divBuiltin.call [.strVal "a", .strVal "b"] =
      .error ⟨.typeError,
        "Invalid argument type for operator \x27/\x27: argument 2 must be Number, got String"⟩ := by
  have h := (C3_amended divBuiltin [.strVal "a", .strVal "b"] [] []
    ⟨[.num, .num], .num, divImpl, emptyHelp, [], none⟩
    "Invalid argument type for operator \x27/\x27: argument 2 must be Number, got String"
    rfl
    (by
      intro o ho
      rw [show divBuiltin.overloads =
        [(⟨[.num, .num], .num, divImpl, emptyHelp, [], none⟩ : Overload)] from rfl] at ho
      rw [List.mem_singleton.mp ho])
    (fun o ho => absurd ho (List.not_mem_nil o))
    rfl
    rfl
    (fun o ho => absurd ho (List.not_mem_nil o))
    (by
      intro pr hpr
      rw [show divBuiltin.errlist = [] from rfl] at hpr
      exact absurd hpr (List.not_mem_nil pr))).1
  exact h

/-- **C8** (confirmed): the commutative registrations of `*` generate one
overload per argument-position permutation (the overload table lists
`[Num,Num]`, then `[str,Num]`/`[Num,str]`, then `[List,Num]`/`[Num,List]`),
and the permuting wrapper hands the implementation the arguments restored
to registration order — so a String (or a List) times an integer Number
gives the same repetition result in either operand order. -/
theorem C8_commutative_mul (s : String) (k : ℚ) (hk : k.den = 1) :
    mulBuiltin.call [.strVal s, .mpfVal (.fin k)] = .ok (.strVal (strRepeat s k.num)) ∧
    mulBuiltin.call [.mpfVal (.fin k), .strVal s] = .ok (.strVal (strRepeat s k.num)) ∧
    (∀ (es : List Expr) (curry : Env),
      mulBuiltin.call [.listE es curry, .mpfVal (.fin k)] =
        .ok (.listE (listRepeat es k.num) curry) ∧
      mulBuiltin.call [.mpfVal (.fin k), .listE es curry] =
        .ok (.listE (listRepeat es k.num) curry)) ∧
    mulBuiltin.overloads.map (fun o => o.argTypes) =
      [[.num, .num], [.str, .num], [.num, .str], [.listT, .num], [.num, .listT]] := by
  have htoInt : MpF.toInt (.fin k) = k.num := by simp [MpF.toInt, hk]
  refine ⟨?_, ?_, fun es curry => ⟨?_, ?_⟩, rfl⟩ <;>
    simp [Builtin.call, mulBuiltin, mkBuiltin, Builtin.add, Builtin.error, dispatchGo,
      expandTypes, enumRev, scanArgs, check_type, checkTypeF, tySize, tySizeList,
      specialNames, strMulImpl, listMulImpl, fmulImpl, Builtin.isOperator, mulInteger,
      itertoolsPerms, permsFuel, hk, htoInt]

/-- **C8 witness**: `"ab" * 3` and `3 * "ab"` both give `"ababab"`. -/
theorem C8_commutative_mul_witness :
    mulBuiltin.call [.strVal "ab", .mpfVal (.fin 3)] = .ok (.strVal "ababab") ∧
    mulBuiltin.call [.mpfVal (.fin 3), .strVal "ab"] = .ok (.strVal "ababab") := by
  have h := C8_commutative_mul "ab" 3 (by norm_num)
  have hrep : strRepeat "ab" ((3 : ℚ)).num = "ababab" := by
    rw [show ((3 : ℚ)).num = 3 from by norm_num]
    rfl
  exact ⟨by rw [h.1, hrep], by rw [h.2.1, hrep]⟩

/-- **C7** (confirmed): (1) generally, whenever `file` is asked to load a
path that is already on the import stack (not yet registered, and present
on disk), it raises `ImportError` whose message enumerates the cycle —
the stack from the first occurrence of that path, closed by the path
again — and leaves the module table exactly as it was (nothing in the
cycle is registered); (2) end to end, resolving `/w/a.nfu` ⇄ `/w/b.nfu`
raises `ImportError: Circular import detected: '/w/b.nfu' -> '/w/a.nfu'
-> '/w/b.nfu'`, and at the moment of the raise the module table holds
only the `builtins` module — neither cycle member is visible. -/
theorem C7_cycle_detection :
    (∀ (fs : FS) (bundle : List RNode) (fuel : Nat) (modName : String)
        (st : RState) (path : String),
      path = pathResolve (pathJoin
        (if pyEndsWith st.path "/" then st.path else pathParent st.path)
        (modName ++ ".nfu")) →
      (st.modules.lookup (_id path)).isNone = true →
      (fs.lookup path).isSome = true →
      st.stack.contains path = true →
      fileR fs bundle (fuel + 1) modName st =
        .error (⟨.importError, cycleMsg st.stack path⟩, st)) ∧
    (∃ stE : RState,
      resolveR c7Fs builtinsBundle 10 [RNode.imp [] "b"] "/w/a.nfu" =
        .error (⟨.importError,
          "Circular import detected:\n\x27/w/b.nfu\x27 -> \x27/w/a.nfu\x27 -> \x27/w/b.nfu\x27"⟩,
          stE) ∧
      stE.modules.map Prod.fst = [_id "builtins"] ∧
      _id "/w/a.nfu" ∉ stE.modules.map Prod.fst ∧
      _id "/w/b.nfu" ∉ stE.modules.map Prod.fst) := by
  constructor
  · intro fs bundle fuel modName st path hpath h1 h2 h3
    subst hpath
    have h1n := Option.isNone_iff_eq_none.mp h1
    have h2n : (fs.lookup (pathResolve (pathJoin
        (if pyEndsWith st.path "/" then st.path else pathParent st.path)
        (modName ++ ".nfu")))).isNone = false := by
      rcases ho : fs.lookup (pathResolve (pathJoin
        (if pyEndsWith st.path "/" then st.path else pathParent st.path)
        (modName ++ ".nfu"))) with _ | v
      · rw [ho] at h2; simp at h2
      · rfl
    simp only [fileR]
    rw [h1n]
    simp [h2n, h3]
    intro hcon
    exact absurd (by simpa using h3) hcon
  · exact ⟨_, rfl, rfl, by decide, by decide⟩

/-- **C7 witness**: the general cycle clause at a concrete state — asking
`file` to load `/x/c.nfu` while it is already on the stack raises the
enumerated self-cycle and returns the untouched state. -/
theorem C7_cycle_detection_witness :
    fileR [("/x/c.nfu", [])] builtinsBundle 3 "c" ⟨[], ["/x/c.nfu"], "/x/m.nfu"⟩ =
      .error (⟨.importError,
        "Circular import detected:\n\x27/x/c.nfu\x27 -> \x27/x/c.nfu\x27"⟩,
        ⟨[], ["/x/c.nfu"], "/x/m.nfu"⟩) := by
  have h := C7_cycle_detection.1 [("/x/c.nfu", [])] builtinsBundle 2 "c"
    ⟨[], ["/x/c.nfu"], "/x/m.nfu"⟩ "/x/c.nfu" rfl rfl rfl rfl
  simpa using h

/-- Each hex byte printed by the MD5 digest has two characters. -/
theorem byteHex_length (b : Nat) : (MD5.byteHex b).length = 2 := rfl

/-- `toLE v 4` is the four little-endian bytes of `v`. -/
theorem toLE_four (v : Nat) : MD5.toLE v 4 =
    [v % 256, (v >>> 8) % 256, (v >>> 16) % 256, (v >>> 24) % 256] := by
  simp [MD5.toLE, List.range_succ]

/-- An MD5 digest prints as exactly 32 hex characters. -/
theorem digestHex_length (a b c d : Nat) : (MD5.digestHex a b c d).length = 32 := by
  simp [MD5.digestHex, toLE_four, String.join, byteHex_length, String.length_append]

/-- `hashlib.md5(...).hexdigest()` always has length 32. -/
theorem md5hex_length (s : String) : (MD5.md5hex s).length = 32 := by
  unfold MD5.md5hex
  exact digestHex_length _ _ _ _

/-- Module ids (`modules._id`) always have length 32. -/
theorem _id_length (p : String) : (_id p).length = 32 := by
  unfold _id
  exact md5hex_length p

/-- A successful dict lookup means the key is in the table. -/
theorem lookup_isSome_key {l : List (String × RModule)} {k : String}
    (h : (l.lookup k).isSome = true) : k ∈ l.map Prod.fst := by
  induction l with
  | nil => simp [List.lookup] at h
  | cons p rest ih =>
    obtain ⟨k1, v1⟩ := p
    by_cases hk : k = k1
    · simp [hk]
    · have hb : (k == k1) = false := beq_eq_false_iff_ne.mpr hk
      simp only [List.lookup, hb] at h
      exact List.mem_cons_of_mem _ (ih h)

/-- `m[k] = v` on the module table: the key list is unchanged on
overwrite and extended by `k` on append. -/
theorem modSet_keys (m : List (String × RModule)) (k : String) (v : RModule) :
    (modSet m k v).map Prod.fst =
      if m.any (fun p => p.1 = k) then m.map Prod.fst
      else m.map Prod.fst ++ [k] := by
  by_cases h : m.any (fun p => p.1 = k) = true
  · rw [modSet, if_pos h, if_pos h, List.map_map]
    refine List.map_congr_left ?_
    intro p _
    by_cases hp : p.1 = k
    · simp [hp]
    · simp [hp]
  · rw [modSet, if_neg h, if_neg h, List.map_append]
    rfl

/-- `m[k] = v` keeps every existing key and makes `k` a key. -/
theorem modSet_keys_sub (m : List (String × RModule)) (k : String) (v : RModule) :
    (∀ x ∈ m.map Prod.fst, x ∈ (modSet m k v).map Prod.fst) ∧
      k ∈ (modSet m k v).map Prod.fst := by
  rw [modSet_keys]
  split
  · next hc =>
    refine ⟨fun x hx => hx, ?_⟩
    rcases List.any_eq_true.mp hc with ⟨p, hp, hpk⟩
    simp only [decide_eq_true_eq] at hpk
    exact List.mem_map.mpr ⟨p, hp, hpk⟩
  · exact ⟨fun x hx => List.mem_append_left _ hx,
      List.mem_append_right _ (by simp)⟩

/-- Every entry of `m[k] = v` is an old entry or the new pair. -/
theorem modSet_mem {m : List (String × RModule)} {k : String} {v : RModule}
    {pr : String × RModule} (h : pr ∈ modSet m k v) : pr ∈ m ∨ pr = (k, v) := by
  rw [modSet] at h
  split at h
  · rcases List.mem_map.mp h with ⟨q, hq, he⟩
    by_cases hqk : q.1 = k
    · right; rw [← he, if_pos hqk]
    · left; rw [← he, if_neg hqk]; exact hq
  · rcases List.mem_append.mp h with h1 | h1
    · exact Or.inl h1
    · right; simpa using h1

/-- Every entry of `d[k] = v` is an old entry or has value `v`. -/
theorem dictSet_values {m : List (String × String)} {k v : String}
    {e : String × String} (h : e ∈ dictSet m k v) : e ∈ m ∨ e.2 = v := by
  rw [dictSet] at h
  split at h
  · rcases List.mem_map.mp h with ⟨q, hq, he⟩
    by_cases hqk : q.1 = k
    · right; rw [← he, if_pos hqk]
    · left; rw [← he, if_neg hqk]; exact hq
  · rcases List.mem_append.mp h with h1 | h1
    · exact Or.inl h1
    · right
      have h2 : e = (k, v) := by simpa using h1
      rw [h2]

/-- Every entry of `d.update(kvs)` is an old entry or carries one of
the updated values. -/
theorem dictUpdate_values {kvs : List (String × String)} :
    ∀ {m : List (String × String)} {e : String × String},
      e ∈ dictUpdate m kvs → e ∈ m ∨ e.2 ∈ kvs.map Prod.snd := by
  induction kvs with
  | nil => intro m e h; exact Or.inl h
  | cons p rest ih =>
    intro m e h
    have h2 : e ∈ dictUpdate (dictSet m p.1 p.2) rest := h
    rcases ih h2 with h1 | h1
    · rcases dictSet_values h1 with h3 | h3
      · exact Or.inl h3
      · right; simp [h3]
    · right; simp [h1]

/-- The import-entry loop of `_module` only produces values that are the
literal `"builtins"` (from the pre-population it starts from) or
`_id` of a resolved path (all of which lie in `S`). -/
theorem impEntries_values (st : RState) (S : List String) :
    ∀ (triples : List (List String × String × String))
      (acc out : List (String × String)),
      (∀ e ∈ acc, e.2 = "builtins" ∨ e.2 ∈ S) →
      (∀ t ∈ triples, _id t.2.2 ∈ S) →
      impEntries st acc triples = .ok out →
      ∀ e ∈ out, e.2 = "builtins" ∨ e.2 ∈ S := by
  intro triples
  induction triples with
  | nil =>
    intro acc out hacc _ h
    simp only [impEntries] at h
    injection h with h2
    subst h2
    exact hacc
  | cons t rest ih =>
    intro acc out hacc htr h
    obtain ⟨names, modName, p⟩ := t
    have hp : _id p ∈ S := htr (names, modName, p) (List.mem_cons_self _ _)
    have htr2 : ∀ t2 ∈ rest, _id t2.2.2 ∈ S :=
      fun t2 ht2 => htr t2 (List.mem_cons_of_mem _ ht2)
    simp only [impEntries] at h
    split at h
    · split at h
      · refine ih _ _ ?_ htr2 h
        intro e he
        rcases dictUpdate_values he with h1 | h1
        · exact hacc e h1
        · right
          rcases List.mem_map.mp h1 with ⟨x, hx, hv⟩
          rcases List.mem_map.mp hx with ⟨nm, _, rfl⟩
          rw [← hv]
          exact hp
      · split at h
        · simp at h
        · refine ih _ _ ?_ htr2 h
          intro e he
          rcases dictUpdate_values he with h1 | h1
          · exact hacc e h1
          · right
            rcases List.mem_map.mp h1 with ⟨x, hx, hv⟩
            rcases List.mem_map.mp hx with ⟨nm, _, rfl⟩
            rw [← hv]
            exact hp
    · refine ih _ _ ?_ htr2 h
      intro e he
      rcases dictUpdate_values he with h1 | h1
      · exact hacc e h1
      · right
        rcases List.mem_map.mp h1 with ⟨x, hx, hv⟩
        rcases List.mem_map.mp hx with ⟨nm, _, rfl⟩
        rw [← hv]
        exact hp

/-- `_module` preserves the table invariant: the new module is keyed by
the id of its path, and its import values are pre-populated `"builtins"`
entries or ids of modules resolved (hence registered) just before. -/
theorem moduleR_step {fs : FS} {bundle : List RNode} {fuel : Nat}
    (ihR : PResolve fs bundle fuel) : PModule fs bundle (fuel + 1) := by
  intro path tree bflag st st2 hInv h
  simp only [moduleR] at h
  split at h
  · simp at h
  · next importPaths stB hR =>
    obtain ⟨hInvB, hMono, hPaths⟩ := ihR tree path st importPaths stB hInv hR
    split at h
    · simp at h
    · next finalImports hE =>
      injection h with h2
      injection h2 with h3 h4
      subst h4
      have hFin : ∀ e ∈ finalImports,
          e.2 = "builtins" ∨ e.2 ∈ stB.modules.map Prod.fst := by
        refine impEntries_values stB _ _ _ _ ?_ ?_ hE
        · intro e he
          split at he
          · split at he
            · rcases List.mem_map.mp he with ⟨nm, hnm, hv⟩
              left
              rw [← hv]
            · simp at he
          · simp at he
        · intro t ht
          rcases List.mem_map.mp ht with ⟨⟨pr1, pr2⟩, hpr, rfl⟩
          exact hPaths _ (List.of_mem_zip hpr).2
      refine ⟨?_, ?_, ?_⟩
      · intro pr hpr
        rcases modSet_mem hpr with h1 | h1
        · obtain ⟨hid, himp⟩ := hInvB pr h1
          refine ⟨hid, fun e he => ?_⟩
          rcases himp e he with h2 | h2
          · exact Or.inl h2
          · exact Or.inr ((modSet_keys_sub _ _ _).1 _ h2)
        · subst h1
          refine ⟨rfl, fun e he => ?_⟩
          rcases hFin e he with h2 | h2
          · exact Or.inl h2
          · exact Or.inr ((modSet_keys_sub _ _ _).1 _ h2)
      · intro x hx
        exact (modSet_keys_sub _ _ _).1 _ (hMono x hx)
      · exact (modSet_keys_sub _ _ _).2

/-- `stdlib` preserves the table invariant. -/
theorem stdlibR_step {fs : FS} {bundle : List RNode} {fuel : Nat}
    (ihM : PModule fs bundle fuel) : PStd fs bundle (fuel + 1) := by
  intro modName st res st2 hInv h
  simp only [stdlibR] at h
  split at h
  · next hreg =>
    injection h with h2
    injection h2 with hres hst
    subst hres
    subst hst
    refine ⟨hInv, fun x hx => hx, ?_⟩
    intro p hp
    injection hp with hpe
    subst hpe
    exact lookup_isSome_key hreg
  · split at h
    · split at h
      · simp at h
      · next u stC hMR =>
        injection h with h2
        injection h2 with hres hst
        subst hres
        subst hst
        obtain ⟨hInvC, hMonoC, hKeyC⟩ := ihM _ _ _ _ _ hInv hMR
        refine ⟨hInvC, hMonoC, ?_⟩
        intro p hp
        injection hp with hpe
        subst hpe
        exact hKeyC
    · injection h with h2
      injection h2 with hres hst
      subst hres
      subst hst
      exact ⟨hInv, fun x hx => hx, fun p hp => by simp at hp⟩

/-- `file` preserves the table invariant. -/
theorem fileR_step {fs : FS} {bundle : List RNode} {fuel : Nat}
    (ihM : PModule fs bundle fuel) : PFile fs bundle (fuel + 1) := by
  intro modName st res st2 hInv h
  simp only [fileR] at h
  generalize hP : pathResolve (pathJoin
      (if pyEndsWith st.path "/" = true then st.path else pathParent st.path)
      (modName ++ ".nfu")) = P at h
  split at h
  · next hreg =>
    rw [Except.ok.injEq, Prod.mk.injEq] at h
    obtain ⟨rfl, rfl⟩ := h
    exact ⟨hInv, fun x hx => hx,
      fun p hp => Option.some.inj hp ▸ lookup_isSome_key hreg⟩
  · split at h
    · rw [Except.ok.injEq, Prod.mk.injEq] at h
      obtain ⟨rfl, rfl⟩ := h
      exact ⟨hInv, fun x hx => hx, fun p hp => by simp at hp⟩
    · split at h
      · simp at h
      · split at h
        · rw [Except.ok.injEq, Prod.mk.injEq] at h
          obtain ⟨rfl, rfl⟩ := h
          exact ⟨hInv, fun x hx => hx, fun p hp => by simp at hp⟩
        · next tr hlk =>
          split at h
          · simp at h
          · next u stC hMR =>
            rw [Except.ok.injEq, Prod.mk.injEq] at h
            obtain ⟨rfl, rfl⟩ := h
            have hstep := fun hI => ihM _ _ _ _ _ hI hMR
            obtain ⟨hInvC, hMonoC, hKeyC⟩ := hstep hInv
            exact ⟨hInvC, fun x hx => hMonoC x hx,
              fun p hp => Option.some.inj hp ▸ hKeyC⟩

/-- `folder` preserves the table invariant. -/
theorem folderR_step {fs : FS} {bundle : List RNode} {fuel : Nat}
    (ihM : PModule fs bundle fuel) : PFolder fs bundle (fuel + 1) := by
  intro modName st res st2 hInv h
  simp only [folderR] at h
  generalize hP : pathResolve (pathJoin
      (if pyEndsWith st.path "/" = true then st.path else pathParent st.path)
      modName) = FP at h
  split at h
  · rw [Except.ok.injEq, Prod.mk.injEq] at h
    obtain ⟨rfl, rfl⟩ := h
    exact ⟨hInv, fun x hx => hx, fun p hp => by simp at hp⟩
  · split at h
    · rw [Except.ok.injEq, Prod.mk.injEq] at h
      obtain ⟨rfl, rfl⟩ := h
      exact ⟨hInv, fun x hx => hx, fun p hp => by simp at hp⟩
    · split at h
      · next hreg =>
        rw [Except.ok.injEq, Prod.mk.injEq] at h
        obtain ⟨rfl, rfl⟩ := h
        exact ⟨hInv, fun x hx => hx,
          fun p hp => Option.some.inj hp ▸ lookup_isSome_key hreg⟩
      · split at h
        · simp at h
        · split at h
          · rw [Except.ok.injEq, Prod.mk.injEq] at h
            obtain ⟨rfl, rfl⟩ := h
            exact ⟨hInv, fun x hx => hx, fun p hp => by simp at hp⟩
          · next tr hlk =>
            split at h
            · simp at h
            · next u stC hMR =>
              rw [Except.ok.injEq, Prod.mk.injEq] at h
              obtain ⟨rfl, rfl⟩ := h
              have hstep := fun hI => ihM _ _ _ _ _ hI hMR
              obtain ⟨hInvC, hMonoC, hKeyC⟩ := hstep hInv
              exact ⟨hInvC, fun x hx => hMonoC x hx,
                fun p hp => Option.some.inj hp ▸ hKeyC⟩

/-- `_resolve` preserves the table invariant, and every path it returns
is registered under its id. -/
theorem resolveImportsR_step {fs : FS} {bundle : List RNode} {fuel : Nat}
    (ihF : PFile fs bundle fuel) (ihD : PFolder fs bundle fuel)
    (ihS : PStd fs bundle fuel) (ihR : PResolve fs bundle fuel) :
    PResolve fs bundle (fuel + 1) := by
  intro nodes path st ps st2 hInv h
  simp only [resolveImportsR] at h
  split at h
  · next names modName rest =>
    split at h
    · simp at h
    · simp at h
    · next p stC heq =>
      have hC : RInv stC ∧
          (∀ x ∈ st.modules.map Prod.fst, x ∈ stC.modules.map Prod.fst) ∧
          _id p ∈ stC.modules.map Prod.fst := by
        split at heq
        · simp at heq
        · next p1 stA hF =>
          rw [Except.ok.injEq, Prod.mk.injEq] at heq
          obtain ⟨hres, rfl⟩ := heq
          obtain rfl := Option.some.inj hres
          have hstep := fun hI => ihF _ _ _ _ hI hF
          obtain ⟨h1, h2, h3⟩ := hstep hInv
          exact ⟨h1, fun x hx => h2 x hx, h3 _ rfl⟩
        · next stA hF =>
          have hstep := fun hI => ihF _ _ _ _ hI hF
          obtain ⟨hA1, hA2, hA3⟩ := hstep hInv
          split at heq
          · simp at heq
          · next p2 stB hD =>
            rw [Except.ok.injEq, Prod.mk.injEq] at heq
            obtain ⟨hres, rfl⟩ := heq
            obtain rfl := Option.some.inj hres
            obtain ⟨hB1, hB2, hB3⟩ := ihD _ _ _ _ hA1 hD
            exact ⟨hB1, fun x hx => hB2 _ (hA2 x hx), hB3 _ rfl⟩
          · next stB hD =>
            obtain ⟨hB1, hB2, hB3⟩ := ihD _ _ _ _ hA1 hD
            obtain ⟨hS1, hS2, hS3⟩ := ihS _ _ _ _ hB1 heq
            exact ⟨hS1, fun x hx => hS2 _ (hB2 _ (hA2 x hx)), hS3 _ rfl⟩
      obtain ⟨hC1, hC2, hC3⟩ := hC
      split at h
      · simp at h
      · next ps1 stE hR2 =>
        rw [Except.ok.injEq, Prod.mk.injEq] at h
        obtain ⟨rfl, rfl⟩ := h
        have hstepR := fun hI => ihR _ _ _ _ _ hI hR2
        obtain ⟨hE1, hE2, hE3⟩ := hstepR hC1
        refine ⟨hE1, fun x hx => hE2 _ (hC2 x hx), ?_⟩
        intro q hq
        rcases List.mem_cons.mp hq with rfl | hq2
        · exact hE2 _ hC3
        · exact hE3 q hq2
  all_goals
    rw [Except.ok.injEq, Prod.mk.injEq] at h
    obtain ⟨rfl, rfl⟩ := h
    exact ⟨hInv, fun x hx => hx, fun q hq => by simp at hq⟩

/-- The table invariant holds for every resolver entry point at every
fuel, by induction on the fuel of the mutual recursion. -/
theorem resolver_inv (fs : FS) (bundle : List RNode) :
    ∀ fuel : Nat, PStd fs bundle fuel ∧ PFile fs bundle fuel ∧
      PFolder fs bundle fuel ∧ PResolve fs bundle fuel ∧ PModule fs bundle fuel := by
  intro fuel
  induction fuel with
  | zero =>
    refine ⟨?_, ?_, ?_, ?_, ?_⟩
    · intro modName st res st2 _ h; simp [stdlibR] at h
    · intro modName st res st2 _ h; simp [fileR] at h
    · intro modName st res st2 _ h; simp [folderR] at h
    · intro nodes path st ps st2 _ h; simp [resolveImportsR] at h
    · intro path tree bflag st st2 _ h; simp [moduleR] at h
  | succ fuel ih =>
    obtain ⟨ihS, ihF, ihD, ihR, ihM⟩ := ih
    exact ⟨stdlibR_step ihM, fileR_step ihM, folderR_step ihM,
      resolveImportsR_step ihF ihD ihS ihR, moduleR_step ihR⟩

/-- Any successful `ImportResolver.resolve` run satisfies the table
invariant (the initial table is empty). -/
theorem resolveR_inv {fs : FS} {bundle : List RNode} {fuel : Nat}
    {tree : List RNode} {path : String} {st : RState}
    (h : resolveR fs bundle fuel tree path = .ok st) : RInv st := by
  have hInv0 : RInv (⟨[], [], path⟩ : RState) := fun pr hpr => by simp at hpr
  obtain ⟨hS, hF, hD, hR, hM⟩ := resolver_inv fs bundle fuel
  simp only [resolveR] at h
  split at h
  · simp at h
  · next r stB hStd =>
    obtain ⟨hB1, hB2, hB3⟩ := hS _ _ _ _ hInv0 hStd
    split at h
    · simp at h
    · next u stC hMod =>
      injection h with h2
      subst h2
      exact (hM _ _ _ _ _ hB1 hMod).1

/-- Under the invariant the literal string `"builtins"` is never a key
of the module table: keys are 32-character MD5 digests. -/
theorem builtins_not_key {st : RState} (hInv : RInv st) :
    "builtins" ∉ st.modules.map Prod.fst := by
  intro hmem
  rcases List.mem_map.mp hmem with ⟨pr, hpr, hfst⟩
  have hid := (hInv pr hpr).1
  have h32 := _id_length pr.2.path
  rw [← hid, hfst] at h32
  exact absurd h32 (by decide)

/-- **C2** (corrected, counterexample): resolving a main module with no import
nodes (with the builtins bundle exporting `identity`) pre-populates its
own imports map with `identity ↦ "builtins"` — the literal path string, not
`_id("builtins")` — and `"builtins"` is not a key of the module table
(whose keys are the MD5 ids), refuting the claim that every `imports`
value is the id of a registered module. -/
theorem C2_counterexample :
    ∃ st : RState,
      resolveR [] builtinsBundle 10 [] "/w/main.nfu" = .ok st ∧
      (st.modules.lookup (_id "/w/main.nfu")).map (fun m => m.imports) =
        some [("identity", "builtins")] ∧
      st.modules.map Prod.fst = [_id "builtins", _id "/w/main.nfu"] ∧
      "builtins" ∉ st.modules.map Prod.fst :=
  ⟨_, rfl, rfl, rfl, by decide⟩

/-- **C2 amended** (proved): (1) universally, for every filesystem,
bundle, fuel, tree and entry path, a successful `resolve` run yields a
module table in which every key is `_id` of the registered module's
path, every value of every module's `imports` is either the literal
string `"builtins"` or a key of the table (explicit `Import` entries are
recorded as `_id` of the resolved path, which `_resolve` has registered),
and the literal string `"builtins"` is **not** a key of the table;
(2) concretely, entries of `imports` recorded from explicit `Import`
nodes map to `_id` of the resolved path, which **is** a key of the module
table (here `x ↦ _id("/w/b.nfu")`), while the pre-populated builtins
entries map to the literal string `"builtins"` (the builtins module is
registered under `_id("builtins")`). -/
theorem C2_amended :
    (∀ (fs : FS) (bundle : List RNode) (fuel : Nat) (tree : List RNode)
        (path : String) (st : RState),
      resolveR fs bundle fuel tree path = .ok st →
      (∀ pr ∈ st.modules, pr.1 = _id pr.2.path ∧
        ∀ e ∈ pr.2.imports, e.2 = "builtins" ∨ e.2 ∈ st.modules.map Prod.fst) ∧
      "builtins" ∉ st.modules.map Prod.fst) ∧
    (∃ st : RState,
      resolveR c2Fs builtinsBundle 10 [RNode.imp ["x"] "b", RNode.stmt]
        "/w/main.nfu" = .ok st ∧
      (st.modules.lookup (_id "/w/main.nfu")).map (fun m => m.imports) =
        some [("identity", "builtins"), ("x", _id "/w/b.nfu")] ∧
      _id "/w/b.nfu" ∈ st.modules.map Prod.fst ∧
      _id "builtins" ∈ st.modules.map Prod.fst ∧
      "builtins" ∉ st.modules.map Prod.fst) := by
  constructor
  · intro fs bundle fuel tree path st h
    have hInv := resolveR_inv h
    exact ⟨hInv, builtins_not_key hInv⟩
  · exact ⟨_, rfl, rfl, by decide, by decide, by decide⟩

/-- **C2 amended witness**: the universal clause applied to a concrete
run — resolving an importless main module leaves a table whose keys do
not include the literal string `"builtins"`. -/
theorem C2_amended_witness :
    ∃ st : RState,
      resolveR [] builtinsBundle 10 [] "/x/m.nfu" = .ok st ∧
      "builtins" ∉ st.modules.map Prod.fst :=
  ⟨_, rfl, (C2_amended.1 [] builtinsBundle 10 [] "/x/m.nfu" _ rfl).2⟩

end NumFu
